import Mathlib

/-!
Verification of the ofgem-compliance-summariser ingestion / summarization /
relevance-linking core against its specification.

Python strings are modelled as `List Char` (`Str`); Python `float` values
arising in the relevance scorer are modelled as exact rationals `ℚ` (all the
constants involved — 0.5, 0.1, 2.0, 1.0 — and the divisions by small natural
numbers are exactly representable, and `min` comparisons are value-faithful).
SQLite tables are modelled as lists of row structures; a SQL `NULL` is an
`Option.none`.  `json.loads` is modelled by an executable fuel-based JSON
parser (`jsonLoads`), and `json.dumps` on lists of strings by
`jsonDumpStrList`.  Fallible Python code (a `TypeError` escaping a function)
is modelled with `Option`: `none` means the Python code raises.
-/

namespace Ofgem

/-- Python `str` modelled as a list of characters. -/
abbrev Str := List Char

/-- Characters treated as whitespace by Python's `str.strip()` / `str.split()`
(ASCII fragment). -/
def pyIsSpace (c : Char) : Bool :=
  c = ' ' || c = '\t' || c = '\n' || c = '\r' || c = '\x0b' || c = '\x0c'

/-- Python `str.lower()` (ASCII-faithful). -/
def pyLower (s : Str) : Str := s.map Char.toLower

/-- Python `str.strip()`: drop leading and trailing whitespace. -/
def pyStrip (s : Str) : Str :=
  ((s.dropWhile pyIsSpace).reverse.dropWhile pyIsSpace).reverse

/-- Python `str.split()` with no argument: maximal runs of non-whitespace. -/
def pySplitWs (s : Str) : List Str :=
  (s.splitOnP pyIsSpace).filter (· ≠ [])

/-- Python `" ".join(ws)`. -/
def joinSpace (ws : List Str) : Str := List.intercalate [' '] ws

/-- Python substring test `needle in hay`. -/
def occursIn (needle hay : Str) : Bool :=
  (List.range (hay.length + 1)).any (fun i => needle.isPrefixOf (hay.drop i))

/-- ASCII alphanumeric, the character class `[A-Za-z0-9]` of `db._WORD`. -/
def isAsciiAlnum (c : Char) : Bool :=
  (('A' ≤ c && c ≤ 'Z') || ('a' ≤ c && c ≤ 'z') || ('0' ≤ c && c ≤ '9'))

/-- Python regex word character `\w` (ASCII fragment), for `\b` boundaries. -/
def isWordChar (c : Char) : Bool := isAsciiAlnum c || c = '_'

/-- `db.DB._tokenize`: the matches of `[A-Za-z0-9]{3,}` (maximal alphanumeric
runs of length ≥ 3), lowercased.  The Python code builds a set; only
membership is ever used, so a list with list membership is faithful. -/
def tokenize (s : Str) : List Str :=
  ((s.splitOnP (fun c => ¬ isAsciiAlnum c)).filter (fun r => 3 ≤ r.length)).map pyLower

/-- Python truthiness `bool(x) = False` for `None`/`""`-style values used in
`a or b` chains over optional strings: `a or b` keeps `a` iff it is a
non-`None`, non-empty string. -/
def pyOrOS (a b : Option Str) : Option Str :=
  match a with
  | some s => if s ≠ [] then some s else b
  | none => b

/-- Python `x or ""` for an optional string. -/
def pyOrEmptyS (a : Option Str) : Str := a.getD []

/-! ## JSON values, printing and parsing (model of `json` stdlib usage) -/

/-- JSON values as produced by `json.loads`. -/
inductive Json where
  | null : Json
  | bool (b : Bool) : Json
  | num (q : ℚ) : Json
  | str (s : Str) : Json
  | arr (elems : List Json) : Json
  | obj (fields : List (Str × Json)) : Json

/-- Python truthiness of a decoded JSON value. -/
def jsonTruthy : Json → Bool
  | .null => false
  | .bool b => b
  | .num q => q ≠ 0
  | .str s => s ≠ []
  | .arr xs => !xs.isEmpty
  | .obj kvs => !kvs.isEmpty

/-- The expression `kws or []` in `_score_item_against_control`. -/
def pyOrEmptyList (j : Json) : Json := if jsonTruthy j then j else .arr []

/-- Python iteration `for k in v`: lists yield elements, strings yield
one-character strings, dicts yield their keys; iterating any other value
raises `TypeError` (modelled as `none`). -/
def pyIterJson : Json → Option (List Json)
  | .arr xs => some xs
  | .str s => some (s.map (fun c => .str [c]))
  | .obj kvs => some (kvs.map (fun kv => .str kv.1))
  | _ => none

/-- Mutual helpers for Python `str(v)` of a decoded JSON value.  String
values convert to themselves; containers print via `repr` of their parts
(single-quoted strings), numbers via decimal notation.  Only the `str`
case is exercised by the theorems below. -/
def ratDecimalStr (q : ℚ) : Str :=
  let sign : Str := if q < 0 then ['-'] else []
  let q := |q|
  let rec digits : Nat → Nat → Str
    | 0, _ => []
    | _ + 1, 0 => []
    | fuel + 1, n => digits fuel (n / 10) ++ [Char.ofNat (48 + n % 10)]
  let natStr : Nat → Str := fun n => if n = 0 then ['0'] else digits (n + 1) n
  if q.den = 1 then sign ++ natStr q.num.toNat
  else
    -- best-effort decimal expansion for denominators dividing a power of ten
    let k := (List.range 40).find? (fun k => ((q * (10 : ℚ) ^ k).den = 1))
    match k with
    | some k =>
        let scaled := (q * (10 : ℚ) ^ k).num.toNat
        let intPart := scaled / 10 ^ k
        let fracPart := scaled % 10 ^ k
        let fracDigits := natStr fracPart
        let pad := List.replicate (k - fracDigits.length) '0'
        sign ++ natStr intPart ++ ['.'] ++ pad ++ fracDigits
    | none => sign ++ natStr q.num.toNat ++ ['/'] ++ natStr q.den

mutual

/-- Python `repr(v)` of a decoded JSON value (best-effort; strings are
single-quoted without escaping). -/
def pyReprJson : Json → Str
  | .null => "None".toList
  | .bool true => "True".toList
  | .bool false => "False".toList
  | .num q => ratDecimalStr q
  | .str s => '\'' :: s ++ ['\'']
  | .arr xs => '[' :: List.intercalate (", ".toList) (pyReprJsonList xs) ++ [']']
  | .obj kvs => '{' :: List.intercalate (", ".toList) (pyReprJsonFields kvs) ++ ['}']

def pyReprJsonList : List Json → List Str
  | [] => []
  | j :: rest => pyReprJson j :: pyReprJsonList rest

def pyReprJsonFields : List (Str × Json) → List Str
  | [] => []
  | (k, v) :: rest => ('\'' :: k ++ ['\''] ++ ": ".toList ++ pyReprJson v) :: pyReprJsonFields rest

end

/-- Python `str(v)` of a decoded JSON value. -/
def pyJsonToStr : Json → Str
  | .str s => s
  | j => pyReprJson j

/-- Lower-case hex digit for a nibble, as `json.dumps` emits in `\uXXXX`
escapes. -/
def jsonHexDigit (n : ℕ) : Char :=
  if n < 10 then Char.ofNat (48 + n) else Char.ofNat (87 + n)

/-- JSON escaping of one character, as done by `json.dumps` with
`ensure_ascii=False`. -/
def jsonEscapeChar (c : Char) : Str :=
  if c = '"' then ['\\', '"']
  else if c = '\\' then ['\\', '\\']
  else if c = '\n' then ['\\', 'n']
  else if c = '\r' then ['\\', 'r']
  else if c = '\t' then ['\\', 't']
  else if c = '\x08' then ['\\', 'b']
  else if c = '\x0c' then ['\\', 'f']
  else if c.toNat < 32 then
    ['\\', 'u', '0', '0', jsonHexDigit (c.toNat / 16), jsonHexDigit (c.toNat % 16)]
  else [c]

/-- A JSON string literal for `s`. -/
def jsonQuote (s : Str) : Str := '"' :: (s.flatMap jsonEscapeChar) ++ ['"']

/-- `json.dumps` of a list of strings (default separators: `", "`). -/
def jsonDumpStrList : List Str → Str
  | [] => "[]".toList
  | ts => '[' :: List.intercalate (", ".toList) (ts.map jsonQuote) ++ [']']

/-- JSON whitespace accepted between tokens. -/
def jsonIsWs (c : Char) : Bool := c = ' ' || c = '\t' || c = '\n' || c = '\r'

def jsonSkipWs (s : Str) : Str := s.dropWhile jsonIsWs

/-- Decoding of a single-character JSON escape (`\\x`). -/
def escMap (e : Char) : Option Char :=
  if e = '"' then some '"'
  else if e = '\\' then some '\\'
  else if e = '/' then some '/'
  else if e = 'n' then some '\n'
  else if e = 'r' then some '\r'
  else if e = 't' then some '\t'
  else if e = 'b' then some '\x08'
  else if e = 'f' then some '\x0c'
  else Option.none

/-- Value of a hex digit. -/
def hexVal (h : Char) : Option ℕ :=
  if '0' ≤ h && h ≤ '9' then some (h.toNat - 48)
  else if 'a' ≤ h && h ≤ 'f' then some (h.toNat - 87)
  else if 'A' ≤ h && h ≤ 'F' then some (h.toNat - 55)
  else Option.none

/-- Parse the body of a JSON string literal (after the opening quote),
returning the decoded characters and the rest of the input. -/
def parseStrBody : Str → Except Unit (Str × Str)
  | [] => .error ()
  | c :: rest =>
    if c = '"' then .ok ([], rest)
    else if c = '\\' then
      match rest with
      | 'u' :: a :: b :: d :: e :: rest2 =>
          (match hexVal a, hexVal b, hexVal d, hexVal e with
           | some x, some y, some z, some w =>
               if (((x * 16 + y) * 16 + z) * 16 + w).isValidChar then
                 (parseStrBody rest2).map
                   (fun p => (Char.ofNat (((x * 16 + y) * 16 + z) * 16 + w) :: p.1, p.2))
               else .error ()
           | _, _, _, _ => .error ())
      | e :: rest2 =>
          (match escMap e with
           | some ch => (parseStrBody rest2).map (fun p => (ch :: p.1, p.2))
           | Option.none => .error ())
      | [] => .error ()
    else if c.toNat < 32 then .error ()
    else (parseStrBody rest).map (fun p => (c :: p.1, p.2))

/-- Parse a JSON number token into a rational (lenient about leading zeros). -/
def numOfToken (tok : Str) : Except Unit ℚ :=
  let (sign, tok) : ℚ × Str :=
    match tok with
    | '-' :: rest => (-1, rest)
    | t => (1, t)
  let digitsVal : Str → Option Nat := fun ds =>
    if ds = [] then none
    else if ds.all (fun c => '0' ≤ c && c ≤ '9') then
      some (ds.foldl (fun acc c => acc * 10 + (c.toNat - 48)) 0)
    else none
  let (intDigits, rest1) := tok.span (fun c => '0' ≤ c && c ≤ '9')
  match digitsVal intDigits with
  | none => .error ()
  | some ip =>
    let (fracPart, rest2) : Option ℚ × Str :=
      match rest1 with
      | '.' :: r =>
          let (fd, r2) := r.span (fun c => '0' ≤ c && c ≤ '9')
          match digitsVal fd with
          | some fv => (some ((fv : ℚ) / (10 : ℚ) ^ fd.length), r2)
          | none => (none, r)
      | r => (some 0, r)
    match fracPart with
    | none => .error ()
    | some fq =>
      match rest2 with
      | [] => .ok (sign * ((ip : ℚ) + fq))
      | 'e' :: r | 'E' :: r =>
          let (esign, r) : Int × Str :=
            match r with
            | '-' :: r2 => (-1, r2)
            | '+' :: r2 => (1, r2)
            | r2 => (1, r2)
          match digitsVal r with
          | some ev => .ok (sign * ((ip : ℚ) + fq) * (10 : ℚ) ^ (esign * ev))
          | none => .error ()
      | _ => .error ()

/-- Parse a JSON number from the head of the input. -/
def parseNum (s : Str) : Except Unit (Json × Str) :=
  let (tok, rest) := s.span (fun c =>
    ('0' ≤ c && c ≤ '9') || c = '-' || c = '+' || c = '.' || c = 'e' || c = 'E')
  (numOfToken tok).map (fun q => (.num q, rest))

mutual

/-- Fuel-based recursive-descent JSON parser; model of `json.loads`. -/
def parseVal : Nat → Str → Except Unit (Json × Str)
  | 0, _ => .error ()
  | n + 1, s =>
    match jsonSkipWs s with
    | 'n' :: 'u' :: 'l' :: 'l' :: r => .ok (.null, r)
    | 't' :: 'r' :: 'u' :: 'e' :: r => .ok (.bool true, r)
    | 'f' :: 'a' :: 'l' :: 's' :: 'e' :: r => .ok (.bool false, r)
    | '"' :: r => (parseStrBody r).map (fun p => (.str p.1, p.2))
    | '[' :: r =>
      (match jsonSkipWs r with
       | ']' :: r2 => .ok (.arr [], r2)
       | r2 => (parseElems n r2).map (fun p => (.arr p.1, p.2)))
    | '{' :: r =>
      (match jsonSkipWs r with
       | '}' :: r2 => .ok (.obj [], r2)
       | r2 => (parseFields n r2).map (fun p => (.obj p.1, p.2)))
    | r => parseNum r

def parseElems : Nat → Str → Except Unit (List Json × Str)
  | 0, _ => .error ()
  | n + 1, s =>
    match parseVal n s with
    | .error _ => .error ()
    | .ok (v, r) =>
      match jsonSkipWs r with
      | ',' :: r2 => (parseElems n r2).map (fun p => (v :: p.1, p.2))
      | ']' :: r2 => .ok ([v], r2)
      | _ => .error ()

def parseFields : Nat → Str → Except Unit (List (Str × Json) × Str)
  | 0, _ => .error ()
  | n + 1, s =>
    match jsonSkipWs s with
    | '"' :: r =>
      (match parseStrBody r with
       | .error _ => .error ()
       | .ok (k, r1) =>
         match jsonSkipWs r1 with
         | ':' :: r2 =>
           (match parseVal n r2 with
            | .error _ => .error ()
            | .ok (v, r3) =>
              match jsonSkipWs r3 with
              | ',' :: r4 => (parseFields n r4).map (fun p => ((k, v) :: p.1, p.2))
              | '}' :: r4 => .ok ([(k, v)], r4)
              | _ => .error ())
         | _ => .error ())
    | _ => .error ()

end

/-- Model of `json.loads`: parse a full document, rejecting trailing input. -/
def jsonLoads (s : Str) : Except Unit Json :=
  match parseVal (s.length + 1) s with
  | .ok (j, rest) => if jsonSkipWs rest = [] then .ok j else .error ()
  | .error _ => .error ()

/-! ## storage/db.py — tag serialization -/

/-- The possible Python types of the `tags` argument of `DB._dump_tags`. -/
inductive TagsIn where
  | none : TagsIn
  | list (ts : List Str) : TagsIn
  | str (s : Str) : TagsIn

/-- `[str(t).strip() for t in ts if str(t).strip()]` on a list of strings. -/
def stripFilter (ts : List Str) : List Str :=
  (ts.map pyStrip).filter (· ≠ [])

/-- `[p.strip() for p in s.split(",") if p.strip()]`. -/
def splitCommaStrip (s : Str) : List Str :=
  ((s.splitOn ',').map pyStrip).filter (· ≠ [])

/-- `DB._dump_tags`: always returns a JSON array string. -/
def dump_tags : TagsIn → Str
  | .none => "[]".toList
  | .list ts => jsonDumpStrList (stripFilter ts)
  | .str s0 =>
    if pyStrip s0 = [] then "[]".toList
    else
      match jsonLoads (pyStrip s0) with
      | .ok (.arr xs) => jsonDumpStrList (stripFilter (xs.map pyJsonToStr))
      | _ => jsonDumpStrList (splitCommaStrip (pyStrip s0))

/-- `DB._load_tags`: a list of strings from flexible tag formats. -/
def load_tags : Option Str → List Str
  | Option.none => []
  | some r =>
    if r = [] then []
    else if pyStrip r = [] then []
    else
      match jsonLoads (pyStrip r) with
      | .ok (.arr xs) => stripFilter (xs.map pyJsonToStr)
      | _ =>
        if (pyStrip r).head? = some '[' ∧ (pyStrip r).getLast? = some ']' then
          ((((((pyStrip r).drop 1).dropLast).filter
              (fun c => c ≠ '"' ∧ c ≠ '\'')).splitOn ',').map pyStrip).filter (· ≠ [])
        else splitCommaStrip (pyStrip r)

/-- The tag list that `_dump_tags` serializes, read off its branch structure
with the JSON-encoding step removed: the stripped non-empty entries of a
list input; for a string input that decodes as a JSON array, the stripped
non-empty `str(t)` values of that array; for any other string input, its
stripped non-empty comma-separated pieces. -/
def tagsNormalized : TagsIn → List Str
  | .none => []
  | .list ts => stripFilter ts
  | .str s0 =>
    if pyStrip s0 = [] then []
    else
      match jsonLoads (pyStrip s0) with
      | .ok (.arr xs) => stripFilter (xs.map pyJsonToStr)
      | _ => splitCommaStrip (pyStrip s0)

/-! ## storage/db.py — items table and `upsert_item` -/

/-- The argument of `DB.upsert_item` (a Python dict; absent keys are `none`). -/
structure RawItem where
  guid : Option Str := Option.none
  link : Option Str := Option.none
  source : Option Str := Option.none
  title : Option Str := Option.none
  content : Option Str := Option.none
  summary : Option Str := Option.none
  published_at : Option Str := Option.none
  tags : TagsIn := .none

/-- A row of the `items` table (`guid TEXT PRIMARY KEY`; SQL `NULL` is
`none`). -/
structure ItemRow where
  guid : Option Str
  source : Str
  title : Str
  link : Str
  content : Str
  summary : Str
  published_at : Str
  tags : Str
  ai_summary : Option Str
  ai_summary_updated_at : Option Str
deriving DecidableEq

/-- The bound parameters of the `INSERT ... ON CONFLICT(guid) DO UPDATE`
statement in `upsert_item`. -/
structure ItemPayload where
  guid : Option Str
  source : Str
  title : Str
  link : Str
  content : Str
  summary : Str
  published_at : Str
  tags : Str
deriving DecidableEq

/-- The `payload` dict computed at the top of `DB.upsert_item`. -/
def payloadOf (it : RawItem) : ItemPayload :=
  { guid := pyOrOS it.guid it.link
    source := pyOrEmptyS it.source
    title := pyOrEmptyS it.title
    link := pyOrEmptyS it.link
    content := pyOrEmptyS it.content
    summary := pyOrEmptyS it.summary
    published_at := pyOrEmptyS it.published_at
    tags := dump_tags it.tags }

/-- The `DO UPDATE SET` clause: overwrite the eight ingestion columns,
leave `ai_summary` / `ai_summary_updated_at` untouched. -/
def applyIngest (r : ItemRow) (p : ItemPayload) : ItemRow :=
  { r with source := p.source, title := p.title, link := p.link,
           content := p.content, summary := p.summary,
           published_at := p.published_at, tags := p.tags }

/-- A freshly inserted row (unset columns are `NULL`). -/
def newRowOf (p : ItemPayload) : ItemRow :=
  { guid := p.guid, source := p.source, title := p.title, link := p.link,
    content := p.content, summary := p.summary, published_at := p.published_at,
    tags := p.tags, ai_summary := Option.none, ai_summary_updated_at := Option.none }

/-- `DB.upsert_item` over a list-of-rows model of the `items` table.
SQLite `ON CONFLICT(guid)` fires only for a non-`NULL` matching guid
(`NULL` primary-key values never conflict in SQLite). -/
def upsert_item (items : List ItemRow) (it : RawItem) : List ItemRow :=
  match (payloadOf it).guid with
  | Option.none => items ++ [newRowOf (payloadOf it)]
  | some g =>
    if items.any (fun r => r.guid = some g) then
      items.map (fun r => if r.guid = some g then applyIngest r (payloadOf it) else r)
    else items ++ [newRowOf (payloadOf it)]

/-! ## storage/db.py — relevance scorer and `relink_item_controls` -/

/-- Python `min(a, b)` on rationals, kept kernel-computable. -/
def ratMin (a b : ℚ) : ℚ := if a ≤ b then a else b

/-- Phrase test of one keyword inside the scorer loop: the stripped,
lowercased keyword contains a space and occurs as a substring of the
lowercased item text. -/
def kwPhraseHit (lowText : Str) (kw : Str) : Bool :=
  let k := pyLower (pyStrip kw)
  k.contains ' ' && occursIn k lowText

/-- Single-word test of one keyword: the stripped, lowercased keyword is a
member of the token set of the text. -/
def kwWordHit (words : List Str) (kw : Str) : Bool :=
  let k := pyLower (pyStrip kw)
  words.contains k

/-- The scoring loop of `_score_item_against_control`, applied to the
already-filtered keyword list: overlap / phrase-boost accumulation and the
final combination.  Returns `0.0` when the keyword list is empty. -/
def scoreKws (itemText : Str) (kws : List Str) : ℚ :=
  if kws = [] then 0
  else
    ratMin 1
      (((kws.countP (fun kw => !kwPhraseHit (pyLower itemText) kw &&
            kwWordHit (tokenize (pyLower itemText)) kw) : ℕ) : ℚ) /
          ((max 1 (kws.countP (fun kw => !kw.contains ' ')) : ℕ) : ℚ) +
        ratMin 1 (((1 / 2 : ℚ) * ((kws.countP (kwPhraseHit (pyLower itemText)) : ℕ) : ℚ)) / 2))

/-- The filter `isinstance(k, str) and k.strip()` applied to one decoded
JSON element (keeps the raw string). -/
def asNonBlankStr : Json → Option Str
  | .str s => if pyStrip s ≠ [] then some s else Option.none
  | _ => Option.none

/-- `DB._score_item_against_control`.  Its JSON-string argument is modelled
by the outcome of `json.loads` on it (`Except.error` = `JSONDecodeError`,
which the code catches and treats as `[]`).  The result is `none` when the
Python code would raise (`TypeError` from iterating a truthy non-iterable
decoded value). -/
def score_item_against_control (itemText : Str) (kwsJson : Except Unit Json) : Option ℚ :=
  (pyIterJson (pyOrEmptyList
      (match kwsJson with
       | .error _ => .arr []
       | .ok j => j))).map
    (fun elems => scoreKws itemText (elems.filterMap asNonBlankStr))

/-- The `+0.1` name bonus applied in `relink_item_controls`: some token of
the control's name occurs as a substring of the lowercased text. -/
def nameBonusApplies (lowText : Str) (name : Str) : Bool :=
  (tokenize name).any (fun tok => occursIn tok lowText)

/-- Per-control score as computed inside `relink_item_controls`:
`min(1.0, _score_item_against_control(...) (+ 0.1 name bonus))`. -/
def fullScore (itemText : Str) (kwsJson : Except Unit Json) (name : Str) : Option ℚ :=
  (score_item_against_control itemText kwsJson).map (fun s =>
    ratMin 1 (if nameBonusApplies (pyLower itemText) name then s + 1 / 10 else s))

/-- A row of the `controls` table as read by `relink_item_controls`
(`keywords` is carried as the `json.loads` outcome of the stored TEXT). -/
structure Control where
  id : ℕ
  ref : Str
  name : Str
  keywords : Except Unit Json

/-- A row of the `item_control_links` table. -/
structure LinkRow where
  item_guid : Str
  control_id : ℕ
  relevance : ℚ
  created_at : Str
deriving DecidableEq

/-- The item dict handed to `relink_item_controls` (its `guid` key must be
present — the code indexes `item["guid"]`). -/
structure LinkItem where
  guid : Str
  title : Option Str := Option.none
  ai_summary : Option Str := Option.none
  summary : Option Str := Option.none
  content : Option Str := Option.none

/-- The `text` assembled at the top of `relink_item_controls`:
`" ".join([title.strip(), (ai_summary or summary or content or "").strip()]).strip()`. -/
def relinkText (item : LinkItem) : Str :=
  pyStrip (joinSpace
    [pyStrip (pyOrEmptyS item.title),
     pyStrip (pyOrEmptyS (pyOrOS item.ai_summary (pyOrOS item.summary item.content)))])

/-- The `scored` list of `relink_item_controls`: `(id, ref, score)` of every
control whose (bonus-adjusted, capped) score reaches `min_relevance`.
`none` when scoring any control raises. -/
def relinkScored (controls : List Control) (text : Str) (minRel : ℚ) :
    Option (List (ℕ × Str × ℚ)) :=
  match controls with
  | [] => some []
  | c :: rest =>
    match fullScore text c.keywords c.name, relinkScored rest text minRel with
    | some s, some acc => some (if minRel ≤ s then (c.id, c.ref, s) :: acc else acc)
    | _, _ => Option.none

/-- `DB.relink_item_controls`: returns the new state of
`item_control_links` together with the returned `(ref, score)` list.
The delete-then-insert only happens when `scored` is non-empty. -/
def relink_item_controls (links : List LinkRow) (controls : List Control)
    (item : LinkItem) (minRel : ℚ) (now : Str) :
    Option (List LinkRow × List (Str × ℚ)) :=
  if relinkText item = [] then some (links, [])
  else if controls.isEmpty then some (links, [])
  else
    (relinkScored controls (relinkText item) minRel).map (fun scored =>
      ((if scored.isEmpty then links
        else links.filter (fun r => r.item_guid ≠ item.guid) ++
          scored.map (fun t => LinkRow.mk item.guid t.1 t.2.2 now)),
       scored.map (fun t => (t.2.1, t.2.2))))

/-! ## api/ai_summary.py — fallback and generated summaries -/

/-- `fallback_ai_summary`: first `limit_words` whitespace-separated words,
with an ellipsis appended when the text was truncated. -/
def fallback_ai_summary (text : Str) (limitWords : ℕ) : Str :=
  joinSpace ((pySplitWs text).take limitWords) ++
    (if (pySplitWs text).length > limitWords then ['…'] else [])

/-- The provider-reply path of `generate_ai_summary`: strip the reply and
truncate to `limit_words` words with an ellipsis marker if it was longer. -/
def providerTruncate (reply : Str) (limitWords : ℕ) : Str :=
  if (pySplitWs (pyStrip reply)).length > limitWords then
    joinSpace ((pySplitWs (pyStrip reply)).take limitWords) ++ ['…']
  else pyStrip reply

/-- `generate_ai_summary`.  The external provider is modelled by an optional
reply string: `none` covers both "no client configured" and "request
raised" (both fall back), `some reply` is the stripped-then-truncated
provider path. -/
def generate_ai_summary (providerReply : Option Str) (text : Str) (limitWords : ℕ) : Str :=
  if pyStrip text = [] then "No content available to summarise.".toList
  else
    match providerReply with
    | Option.none => fallback_ai_summary (pyStrip text) limitWords
    | some reply => providerTruncate reply limitWords

/-! ## api/server.py — boilerplate blocklist and the summary-cache writes -/

/-- The `bad_snippets` blocklist of `_is_boilerplate_summary`. -/
def badSnippets : List Str :=
  ["skip to main content".toList, "user account menu".toList,
   "reset button in search".toList, "data portal".toList,
   "sign in / register".toList, "show/hide menu".toList,
   "main navigation".toList, "cookies".toList]

/-- `_is_boilerplate_summary`: empty text, or any blocklist snippet occurs in
the lowercased, stripped text. -/
def is_boilerplate_summary (text : Str) : Bool :=
  if text = [] then true
  else
    let t := pyStrip (pyLower text)
    badSnippets.any (fun snip => occursIn snip t)

/-- `UPDATE items SET ai_summary = ? WHERE guid = ?`. -/
def updateAiByGuid (items : List ItemRow) (g : Str) (s : Str) : List ItemRow :=
  items.map (fun r => if r.guid = some g then { r with ai_summary := some s } else r)

/-- `UPDATE items SET ai_summary = ? WHERE link = ?`. -/
def updateAiByLink (items : List ItemRow) (g : Str) (s : Str) : List ItemRow :=
  items.map (fun r => if r.link = g then { r with ai_summary := some s } else r)

/-- `_set_cached_ai_summary`: write by guid, then also by link. -/
def set_cached_ai_summary (items : List ItemRow) (g : Str) (s : Str) : List ItemRow :=
  updateAiByLink (updateAiByGuid items g s) g s

/-- The persistence tail of the `/api/ai-summary` endpoint after a summary
has been generated: a guarded `UPDATE` that skips blocklisted summaries,
followed by the unconditional `_set_cached_ai_summary` call. -/
def aiSummaryCachePersist (items : List ItemRow) (guid : Str) (summary : Str) :
    List ItemRow :=
  let items1 :=
    if !is_boilerplate_summary summary then updateAiByGuid items guid summary
    else items
  set_cached_ai_summary items1 guid summary

/-! ## clean_extracted_text (api/ai_summary.py, tools/ai_utils.py,
api/server.py — three identical copies) -/

/-- `re.sub(r"[ \t]+", " ", text)`: collapse runs of spaces/tabs.  The flag
records whether the previous character was part of a run. -/
def collapseSpaceTabGo : Bool → Str → Str
  | _, [] => []
  | prevSp, c :: rest =>
    if c = ' ' || c = '\t' then
      (if prevSp then collapseSpaceTabGo true rest
       else ' ' :: collapseSpaceTabGo true rest)
    else c :: collapseSpaceTabGo false rest

def collapseSpaceTab (s : Str) : Str := collapseSpaceTabGo false s

/-- `re.sub(r"\r\n?", "\n", raw)`. -/
def normNewlines : Str → Str
  | [] => []
  | '\r' :: '\n' :: rest => '\n' :: normNewlines rest
  | '\r' :: rest => '\n' :: normNewlines rest
  | c :: rest => c :: normNewlines rest

/-- `re.sub(r"\n{3,}", "\n\n", s)`: every maximal newline run of length ≥ 3
becomes exactly two newlines (equivalently: cap consecutive emitted
newlines at two). -/
def collapseNLGo : ℕ → Str → Str
  | _, [] => []
  | k, '\n' :: rest =>
    if k < 2 then '\n' :: collapseNLGo (k + 1) rest else collapseNLGo k rest
  | _, c :: rest => c :: collapseNLGo 0 rest

def collapseNLs (s : Str) : Str := collapseNLGo 0 s

/-- The literal alternatives of the compiled `_BP_REGEX` (each pattern in
`_BOILERPLATE_PATTERNS` expands to a finite set of lowercase literals,
matched with a `\b` word boundary at both ends). -/
def bpPhrases : List Str :=
  ["skip to content".toList, "skip to main content".toList,
   "navigation".toList, "main navigation".toList,
   "show/hide menu".toList, "showhide menu".toList, "toggle menu".toList,
   "sign in".toList, "register".toList, "log in".toList, "login".toList,
   "log out".toList, "logout".toList,
   "search".toList, "search results".toList, "reset button in search".toList,
   "cookie banner".toList, "cookie settings".toList, "cookie preferences".toList,
   "cookies banner".toList, "cookies settings".toList, "cookies preferences".toList,
   "accept all cookies".toList,
   "user account menu".toList, "footer".toList,
   "share page".toList, "share this page".toList,
   "related content".toList, "related links".toList,
   "data portal".toList]

/-- Occurrence of `phrase` in `hay` with `\b` word boundaries on both sides
(every phrase starts and ends with a word character). -/
def wordBoundedIn (phrase hay : Str) : Bool :=
  (List.range (hay.length + 1)).any (fun i =>
    phrase.isPrefixOf (hay.drop i) &&
    (match (hay.take i).getLast? with
     | Option.none => true
     | some c => !isWordChar c) &&
    (match (hay.drop i).drop phrase.length with
     | [] => true
     | c :: _ => !isWordChar c))

/-- `_BP_REGEX.search(ln)` (the regex is case-insensitive). -/
def bpMatch (ln : Str) : Bool :=
  let l := pyLower ln
  bpPhrases.any (fun ph => wordBoundedIn ph l)

/-- `ln.endswith((".", ":", "?", "!", "…"))`. -/
def endsSentencePunct (ln : Str) : Bool :=
  match ln.getLast? with
  | some c => c = '.' || c = ':' || c = '?' || c = '!' || c = '…'
  | Option.none => false

/-- The per-line keep test of the cleaning loop. -/
def keepLine (ttl ttlLow ln : Str) : Bool :=
  !ln.isEmpty && !bpMatch ln && !(ln.length ≤ 3) &&
  !(ln.length ≤ 18 && !endsSentencePunct ln) &&
  !(!ttl.isEmpty && pyLower ln = ttlLow)

/-- The `cleaned` value of `clean_extracted_text` before the 200-character
safety fallback: normalize, split into stripped lines, filter, rejoin,
collapse blank runs, strip. -/
def strippedResult (title text : Str) : Str :=
  let raw := normNewlines (collapseSpaceTab text)
  let lines := (raw.splitOn '\n').map pyStrip
  let ttl := pyStrip title
  let ttlLow := pyLower ttl
  let kept := lines.filter (keepLine ttl ttlLow)
  pyStrip (collapseNLs (List.intercalate ['\n'] kept))

/-- The final `max_chars` truncation step of `clean_extracted_text`. -/
def truncateAt (maxChars : ℕ) (s : Str) : Str :=
  if s.length > maxChars then s.take maxChars else s

/-- `clean_extracted_text(title, text, max_chars)`. -/
def clean_extracted_text (title text : Str) (maxChars : ℕ) : Str :=
  if text = [] then text
  else
    truncateAt maxChars
      (if (strippedResult title text).length < 200 then pyStrip text
       else strippedResult title text)

/-! ## scraper/ofgem.py `_parse_date` and the per-item step of `main.run` -/

/-- `_parse_date`, with `dateutil.parser.parse ∘ isoformat` abstracted as an
oracle (`none` = the library call raised): a falsy input returns `None`,
otherwise the parse result or `None` on failure. -/
def parse_date (oracle : Str → Option Str) : Option Str → Option Str
  | Option.none => Option.none
  | some s => if s = [] then Option.none else oracle s

/-- The `published` chain in `collect_items`:
`_parse_date(published) or _parse_date(updated) or _parse_date(issued)`. -/
def collectPublished (oracle : Str → Option Str)
    (published updated issued : Option Str) : Option Str :=
  pyOrOS (parse_date oracle published)
    (pyOrOS (parse_date oracle updated) (parse_date oracle issued))

/-- A candidate yielded by `collect_items` as consumed by `main.run`. -/
structure Candidate where
  guid : Option Str := Option.none
  link : Option Str := Option.none
  title : Option Str := Option.none
  source : Option Str := Option.none
  content : Option Str := Option.none
  published_at : Option Str := Option.none

/-- Outcome of one iteration of the ingestion loop in `main.run`. -/
inductive StepResult where
  | skipped : StepResult
  | saved (payload : RawItem) : StepResult

/-- Lexicographic (code-point) order on strings, for Python `sorted`. -/
def strLe (a b : Str) : Bool :=
  match a, b with
  | [], _ => true
  | _ :: _, [] => false
  | c :: a', d :: b' => if c.val < d.val then true else if d.val < c.val then false else strLe a' b'

/-- `list(sorted({t.strip() for t in (tags or []) if t.strip()}))`. -/
def normaliseTags (tags : List Str) : List Str :=
  (((tags.map pyStrip).filter (· ≠ [])).dedup).mergeSort (fun a b => strLe a b)

/-- One iteration of the ingestion loop of `main.run`.
`dbHas` models `db.exists`; `isoBefore` models the
`datetime.fromisoformat(...) < since_dt` test (`none` = the conversion
raised, in which case the item is kept); `summarise` wraps
`summarise_and_tag`, whose provider-dependent output is irrelevant to the
dated fields (its exception path is one more possible output). -/
def mainRunStep (dbHas : Str → Bool) (isoBefore : Str → Option Bool)
    (hasCutoff : Bool) (summarise : Str → Str → Str → Str × List Str)
    (nowIso : Str) (item : Candidate) : StepResult :=
  match pyOrOS item.guid item.link with
  | Option.none => .skipped
  | some g =>
    if g = [] then .skipped
    else
      let cutoffSkip :=
        hasCutoff &&
          (match item.published_at with
           | Option.none => false
           | some p => if p = [] then false else (isoBefore p).getD false)
      if cutoffSkip then .skipped
      else if dbHas g then .skipped
      else
        let title := pyStrip (pyOrEmptyS item.title)
        let source := pyStrip (pyOrEmptyS item.source)
        let fulltext := pyOrEmptyS item.content
        let st := summarise fulltext title source
        .saved
          { guid := some g
            source := some (if source ≠ [] then source else "UNKNOWN".toList)
            title := some title
            link := some (pyOrEmptyS item.link)
            content := some fulltext
            summary := some st.1
            published_at := some
              (match item.published_at with
               | some p => if p ≠ [] then p else nowIso
               | Option.none => nowIso)
            tags := .list (normaliseTags st.2) }

/-! ## Statement-level helper definitions -/

/-- Projection of a `StepResult` onto its saved payload. -/
def stepPayload? : StepResult → Option RawItem
  | .skipped => Option.none
  | .saved p => some p

/-- "Keyword `kw` matches `itemText`" exactly as the scorer loop tests it:
either as a phrase (space inside, substring of the lowercased text) or as a
single word (member of the token set). -/
def kwMatches (itemText kw : Str) : Bool :=
  kwPhraseHit (pyLower itemText) kw || kwWordHit (tokenize (pyLower itemText)) kw

/-- The rows of the link table belonging to one item. -/
def linksOf (links : List LinkRow) (guid : Str) : List LinkRow :=
  links.filter (fun r => r.item_guid = guid)

/-- The primary-key invariant of the `items` table at one guid value:
at most one row carries it. -/
def atMostOne (items : List ItemRow) (g : Str) : Prop :=
  items.countP (fun r => r.guid = some g) ≤ 1

/-! # Theorems -/

/-! ## Helper lemmas about `upsert_item` -/

theorem applyIngest_guid (r : ItemRow) (p : ItemPayload) : (applyIngest r p).guid = r.guid := rfl

theorem upsert_item_some (items : List ItemRow) (it : RawItem) (g : Str)
    (hg : (payloadOf it).guid = some g) :
    upsert_item items it =
      if items.any (fun r => r.guid = some g) then
        items.map (fun r => if r.guid = some g then applyIngest r (payloadOf it) else r)
      else items ++ [newRowOf (payloadOf it)] := by
  unfold upsert_item
  rw [hg]

theorem upsert_count_one (items : List ItemRow) (it : RawItem) (g : Str)
    (hg : (payloadOf it).guid = some g) (h1 : atMostOne items g) :
    (upsert_item items it).countP (fun r => r.guid = some g) = 1 := by
  rw [upsert_item_some items it g hg]
  by_cases hex : items.any (fun r => r.guid = some g)
  · rw [if_pos hex]
    rw [List.countP_map]
    have hc : items.countP
        ((fun r => decide (r.guid = some g)) ∘
          (fun r => if r.guid = some g then applyIngest r (payloadOf it) else r)) =
        items.countP (fun r => r.guid = some g) := by
      apply List.countP_congr
      intro r _
      by_cases h : r.guid = some g <;> simp [h, applyIngest_guid]
    rw [hc]
    have hpos : 0 < items.countP (fun r => r.guid = some g) := by
      rw [List.countP_pos_iff]
      simpa using hex
    exact le_antisymm h1 hpos
  · rw [if_neg hex]
    rw [List.countP_append]
    have h0 : items.countP (fun r => r.guid = some g) = 0 := by
      rw [List.countP_eq_zero]
      intro r hr
      have := List.any_eq_false.mp (Bool.eq_false_iff.mpr hex) r hr
      simpa using this
    have h2 : [newRowOf (payloadOf it)].countP (fun r => r.guid = some g) = 1 := by
      have : (newRowOf (payloadOf it)).guid = some g := by simp [newRowOf, hg]
      simp [List.countP_cons, this]
    omega

theorem upsert_latest_fields (items : List ItemRow) (it : RawItem) (g : Str)
    (hg : (payloadOf it).guid = some g) :
    ∀ r ∈ upsert_item items it, r.guid = some g →
      r.source = (payloadOf it).source ∧ r.title = (payloadOf it).title ∧
      r.link = (payloadOf it).link ∧ r.content = (payloadOf it).content ∧
      r.summary = (payloadOf it).summary ∧
      r.published_at = (payloadOf it).published_at ∧ r.tags = (payloadOf it).tags := by
  intro r hr hguid
  rw [upsert_item_some items it g hg] at hr
  by_cases hex : items.any (fun r => r.guid = some g)
  · rw [if_pos hex] at hr
    obtain ⟨r0, hr0, rfl⟩ := List.mem_map.mp hr
    by_cases h : r0.guid = some g
    · rw [if_pos h]
      simp [applyIngest]
    · rw [if_neg h] at hguid ⊢
      exact absurd hguid h
  · rw [if_neg hex] at hr
    rcases List.mem_append.mp hr with hmem | hmem
    · exfalso
      have := List.any_eq_false.mp (Bool.eq_false_iff.mpr hex) r hmem
      simp at this
      exact this hguid
    · have : r = newRowOf (payloadOf it) := by simpa using hmem
      subst this
      simp [newRowOf]

/-- C2: calling `upsert_item` twice with the same (non-NULL) computed guid
leaves exactly one row for that guid, and that row's eight ingestion fields
equal the values of the latest ingested record. -/
theorem upsert_twice_single_row_latest_fields (items : List ItemRow)
    (it1 it2 : RawItem) (g : Str) (hwf : atMostOne items g)
    (h1 : (payloadOf it1).guid = some g) (h2 : (payloadOf it2).guid = some g) :
    ((upsert_item (upsert_item items it1) it2).countP (fun r => r.guid = some g) = 1) ∧
    (∀ r ∈ upsert_item (upsert_item items it1) it2, r.guid = some g →
      r.source = (payloadOf it2).source ∧ r.title = (payloadOf it2).title ∧
      r.link = (payloadOf it2).link ∧ r.content = (payloadOf it2).content ∧
      r.summary = (payloadOf it2).summary ∧
      r.published_at = (payloadOf it2).published_at ∧ r.tags = (payloadOf it2).tags) := by
  constructor
  · apply upsert_count_one _ _ _ h2
    unfold atMostOne
    rw [upsert_count_one items it1 g h1 hwf]
  · exact upsert_latest_fields _ it2 g h2

/-- C2 witness: two concrete upserts of guid `"g"` into an empty table. -/
theorem upsert_twice_single_row_latest_fields_witness :
    atMostOne ([] : List ItemRow) "g".toList ∧
    (payloadOf { guid := some "g".toList } : ItemPayload).guid = some "g".toList ∧
    (payloadOf { guid := some "g".toList, title := some "T2".toList } : ItemPayload).guid
      = some "g".toList ∧
    (((upsert_item (upsert_item ([] : List ItemRow) { guid := some "g".toList })
        { guid := some "g".toList, title := some "T2".toList }).countP
          (fun r => r.guid = some "g".toList) = 1) ∧
     (∀ r ∈ upsert_item (upsert_item ([] : List ItemRow) { guid := some "g".toList })
        { guid := some "g".toList, title := some "T2".toList }, r.guid = some "g".toList →
        r.source = (payloadOf { guid := some "g".toList, title := some "T2".toList }
          : ItemPayload).source ∧
        r.title = (payloadOf { guid := some "g".toList, title := some "T2".toList }
          : ItemPayload).title ∧
        r.link = (payloadOf { guid := some "g".toList, title := some "T2".toList }
          : ItemPayload).link ∧
        r.content = (payloadOf { guid := some "g".toList, title := some "T2".toList }
          : ItemPayload).content ∧
        r.summary = (payloadOf { guid := some "g".toList, title := some "T2".toList }
          : ItemPayload).summary ∧
        r.published_at = (payloadOf { guid := some "g".toList, title := some "T2".toList }
          : ItemPayload).published_at ∧
        r.tags = (payloadOf { guid := some "g".toList, title := some "T2".toList }
          : ItemPayload).tags)) :=
  ⟨by unfold atMostOne; decide, by decide, by decide,
   upsert_twice_single_row_latest_fields ([] : List ItemRow) _ _ "g".toList
     (by unfold atMostOne; decide) (by decide) (by decide)⟩

/-- C9: re-upserting an existing guid rewrites the row in place through
`applyIngest` — which by definition only sets the eight ingestion columns —
and every row's `ai_summary` / `ai_summary_updated_at` are unchanged. -/
theorem upsert_preserves_cached_summary (items : List ItemRow) (it : RawItem) (g : Str)
    (hg : (payloadOf it).guid = some g)
    (hex : items.any (fun r => r.guid = some g) = true) :
    upsert_item items it =
      items.map (fun r => if r.guid = some g then applyIngest r (payloadOf it) else r) ∧
    (upsert_item items it).map (fun r => (r.ai_summary, r.ai_summary_updated_at)) =
      items.map (fun r => (r.ai_summary, r.ai_summary_updated_at)) := by
  have h1 : upsert_item items it =
      items.map (fun r => if r.guid = some g then applyIngest r (payloadOf it) else r) := by
    rw [upsert_item_some items it g hg, if_pos hex]
  refine ⟨h1, ?_⟩
  rw [h1, List.map_map]
  apply List.map_congr_left
  intro r _
  by_cases h : r.guid = some g <;> simp [h, applyIngest]

/-- C9 witness: a concrete row with a cached summary keeps it across a
re-ingestion of the same guid. -/
theorem upsert_preserves_cached_summary_witness :
    (payloadOf { guid := some "g".toList, title := some "T2".toList } : ItemPayload).guid
      = some "g".toList ∧
    ([({ guid := some "g".toList, source := [], title := "T1".toList, link := [],
         content := [], summary := [], published_at := [], tags := [],
         ai_summary := some "CACHED".toList,
         ai_summary_updated_at := some "t".toList } : ItemRow)].any
      (fun r => r.guid = some "g".toList) = true) ∧
    (upsert_item
        [({ guid := some "g".toList, source := [], title := "T1".toList, link := [],
            content := [], summary := [], published_at := [], tags := [],
            ai_summary := some "CACHED".toList,
            ai_summary_updated_at := some "t".toList } : ItemRow)]
        { guid := some "g".toList, title := some "T2".toList }).map
      (fun r => (r.ai_summary, r.ai_summary_updated_at)) =
      [({ guid := some "g".toList, source := [], title := "T1".toList, link := [],
          content := [], summary := [], published_at := [], tags := [],
          ai_summary := some "CACHED".toList,
          ai_summary_updated_at := some "t".toList } : ItemRow)].map
      (fun r => (r.ai_summary, r.ai_summary_updated_at)) :=
  ⟨by decide, by decide,
   (upsert_preserves_cached_summary _ _ "g".toList (by decide) (by decide)).2⟩

/-- C6: whenever the boilerplate-stripped result falls below the
200-character floor, `clean_extracted_text` discards the cleaning and
returns the original trimmed text, truncated to `max_chars`. -/
theorem clean_safety_fallback (title text : Str) (mc : ℕ)
    (htext : text ≠ []) (hlen : (strippedResult title text).length < 200) :
    clean_extracted_text title text mc = (pyStrip text).take mc := by
  unfold clean_extracted_text truncateAt
  rw [if_neg htext, if_pos hlen]
  split
  · rfl
  · next h => exact (List.take_of_length_le (Nat.le_of_not_lt h)).symm

/-- C6 witness: a two-character text trivially strips below 200 characters
and is returned as its own trimmed form. -/
theorem clean_safety_fallback_witness :
    "hi".toList ≠ [] ∧ (strippedResult "T".toList "hi".toList).length < 200 ∧
    clean_extracted_text "T".toList "hi".toList 12000 =
      (pyStrip "hi".toList).take 12000 :=
  ⟨by decide, by decide, clean_safety_fallback _ _ 12000 (by decide) (by decide)⟩

/-- C10: the scorer returns exactly `0.0` — and does not raise — when the
keywords JSON is an empty array, fails to decode, or decodes to an array
with no non-blank string entries. -/
theorem scorer_zero_on_degenerate_keywords :
    (∀ t, score_item_against_control t (.ok (.arr [])) = some 0) ∧
    (∀ t, score_item_against_control t (.error ()) = some 0) ∧
    (∀ t (xs : List Json), xs.filterMap asNonBlankStr = [] →
      score_item_against_control t (.ok (.arr xs)) = some 0) := by
  refine ⟨fun t => rfl, fun t => rfl, fun t xs h => ?_⟩
  cases xs with
  | nil => rfl
  | cons a l =>
      show (some (scoreKws t ((a :: l).filterMap asNonBlankStr)) : Option ℚ) = some 0
      rw [h]
      rfl

/-- C10 witness: a keywords array holding a number and a blank string
scores zero. -/
theorem scorer_zero_on_degenerate_keywords_witness :
    ([Json.num 0, Json.str "  ".toList].filterMap asNonBlankStr = []) ∧
    score_item_against_control "abc".toList
      (.ok (.arr [Json.num 0, Json.str "  ".toList])) = some 0 :=
  ⟨by decide, scorer_zero_on_degenerate_keywords.2.2 "abc".toList _ (by decide)⟩

/-- C4 (code bug): a summary matching the junk blocklist is nevertheless
persisted to `items.ai_summary`, because `_set_cached_ai_summary` runs
unconditionally after the blocklist-guarded write — evaluated here at a
concrete boilerplate summary. -/
theorem boilerplate_summary_still_cached :
    is_boilerplate_summary "Skip to main content".toList = true ∧
    (aiSummaryCachePersist
        [({ guid := some "g".toList, source := [], title := [], link := "L".toList,
            content := [], summary := [], published_at := [], tags := [],
            ai_summary := Option.none, ai_summary_updated_at := Option.none } : ItemRow)]
        "g".toList "Skip to main content".toList).map ItemRow.ai_summary
      = [some "Skip to main content".toList] :=
  ⟨by decide, by decide⟩

/-- C8 counterexample: a candidate whose date failed to parse is saved with
`published_at` equal to the ingestion-time timestamp `_iso_now()`, not with
a null/unparsed date. -/
theorem unparsed_date_stored_as_now_counterexample :
    (stepPayload? (mainRunStep (fun _ => false) (fun _ => Option.none) false
        (fun _ _ _ => ([], [])) "2026-01-01T00:00:00Z".toList
        { guid := some "g".toList })).map RawItem.published_at
      = some (some "2026-01-01T00:00:00Z".toList) ∧
    "2026-01-01T00:00:00Z".toList ≠ [] :=
  ⟨by decide, by decide⟩

/-- C8 (amended): when all three date fields fail to parse the candidate's
`published_at` is `None`, and `main.run` still saves the record — with the
current-run timestamp `_iso_now()` substituted for the missing date. -/
theorem unparsable_date_kept_and_defaulted
    (oracle : Str → Option Str) (p u i : Option Str)
    (hp : parse_date oracle p = Option.none) (hu : parse_date oracle u = Option.none)
    (hi : parse_date oracle i = Option.none)
    (dbHas : Str → Bool) (isoBefore : Str → Option Bool) (hasCutoff : Bool)
    (summarise : Str → Str → Str → Str × List Str) (nowIso : Str) (item : Candidate)
    (g : Str) (hg : pyOrOS item.guid item.link = some g) (hgne : g ≠ [])
    (hdb : dbHas g = false)
    (hpub : item.published_at = collectPublished oracle p u i) :
    item.published_at = Option.none ∧
    (stepPayload? (mainRunStep dbHas isoBefore hasCutoff summarise nowIso item)).map
        RawItem.published_at = some (some nowIso) := by
  have hnone : collectPublished oracle p u i = Option.none := by
    simp [collectPublished, hp, hu, hi, pyOrOS]
  have hpn : item.published_at = Option.none := by rw [hpub, hnone]
  refine ⟨hpn, ?_⟩
  unfold mainRunStep
  rw [hg]
  simp [hgne, hdb, hpn, stepPayload?]

/-- C8 witness: concrete instantiation of the amended statement with an
always-failing parse oracle. -/
theorem unparsable_date_kept_and_defaulted_witness :
    parse_date (fun _ => Option.none) (some "yesterday".toList) = Option.none ∧
    pyOrOS (some "g".toList : Option Str) Option.none = some "g".toList ∧
    ({ guid := some "g".toList,
       published_at := collectPublished (fun _ => Option.none)
         (some "yesterday".toList) Option.none Option.none } : Candidate).published_at
      = Option.none ∧
    (stepPayload? (mainRunStep (fun _ => false) (fun _ => Option.none) true
        (fun _ _ _ => ([], [])) "2026-02-02T00:00:00Z".toList
        { guid := some "g".toList,
          published_at := collectPublished (fun _ => Option.none)
            (some "yesterday".toList) Option.none Option.none })).map
      RawItem.published_at = some (some "2026-02-02T00:00:00Z".toList) := by
  refine ⟨by decide, by decide, ?_, ?_⟩
  · exact (unparsable_date_kept_and_defaulted (fun _ => Option.none)
      (some "yesterday".toList) Option.none Option.none (by decide) (by decide) (by decide)
      (fun _ => false) (fun _ => Option.none) true (fun _ _ _ => ([], []))
      "2026-02-02T00:00:00Z".toList _ "g".toList (by decide) (by decide) (by decide) rfl).1
  · exact (unparsable_date_kept_and_defaulted (fun _ => Option.none)
      (some "yesterday".toList) Option.none Option.none (by decide) (by decide) (by decide)
      (fun _ => false) (fun _ => Option.none) true (fun _ _ _ => ([], []))
      "2026-02-02T00:00:00Z".toList _ "g".toList (by decide) (by decide) (by decide) rfl).2

/-! ## Helper lemmas about the relevance scorer -/

theorem ratMin_eq_min (a b : ℚ) : ratMin a b = min a b := by
  simp [ratMin, min_def]

theorem scoreKws_all_unmatched (t : Str) (kws : List Str)
    (h : ∀ kw ∈ kws, kwMatches t kw = false) : scoreKws t kws = 0 := by
  rcases eq_or_ne kws [] with rfl | hne
  · simp [scoreKws]
  · unfold scoreKws
    rw [if_neg hne]
    have hov : kws.countP (fun kw => !kwPhraseHit (pyLower t) kw &&
        kwWordHit (tokenize (pyLower t)) kw) = 0 := by
      rw [List.countP_eq_zero]
      intro kw hkw
      have hm := h kw hkw
      unfold kwMatches at hm
      simp only [Bool.or_eq_false_iff] at hm
      simp [hm.1, hm.2]
    have hpb : kws.countP (kwPhraseHit (pyLower t)) = 0 := by
      rw [List.countP_eq_zero]
      intro kw hkw
      have hm := h kw hkw
      unfold kwMatches at hm
      simp only [Bool.or_eq_false_iff] at hm
      simp [hm.1]
    rw [hov, hpb]
    norm_num [ratMin]

/-- C1 counterexample: an item whose qualifying set is empty keeps its stale
link rows — `relink_item_controls` returns the empty pair list but leaves
the previously stored row for the item in place, instead of deleting it. -/
theorem relink_keeps_stale_links_counterexample :
    relink_item_controls [⟨"g".toList, 1, (1 : ℚ) / 2, "t0".toList⟩]
        [⟨1, "C1".toList, "zzzz".toList, .ok (.arr [.str "zebra".toList])⟩]
        { guid := "g".toList, title := some "hello energy world".toList }
        (35 / 100) "t1".toList
      = some ([⟨"g".toList, 1, (1 : ℚ) / 2, "t0".toList⟩], []) ∧
    ([(⟨"g".toList, 1, (1 : ℚ) / 2, "t0".toList⟩ : LinkRow)].filter
        (fun r => r.item_guid = "g".toList)).length = 1 := by
  have hked : ∀ kw ∈ ["zebra".toList], kwMatches "hello energy world".toList kw = false := by
    decide
  have h0 : scoreKws "hello energy world".toList ["zebra".toList] = 0 :=
    scoreKws_all_unmatched _ _ hked
  have hnb : nameBonusApplies (pyLower "hello energy world".toList) "zzzz".toList = false := by
    decide
  have hs : fullScore "hello energy world".toList (.ok (.arr [.str "zebra".toList]))
      "zzzz".toList = some 0 := by
    show some (ratMin 1
        (if nameBonusApplies (pyLower "hello energy world".toList) "zzzz".toList = true
         then scoreKws "hello energy world".toList ["zebra".toList] + 1 / 10
         else scoreKws "hello energy world".toList ["zebra".toList])) = some 0
    rw [hnb, if_neg (by simp), h0]
    norm_num [ratMin]
  have hrs : relinkScored
      [⟨1, "C1".toList, "zzzz".toList, .ok (.arr [.str "zebra".toList])⟩]
      "hello energy world".toList (35 / 100) = some [] := by
    unfold relinkScored
    rw [hs]
    show some (if (35 : ℚ) / 100 ≤ 0 then [(1, "C1".toList, (0 : ℚ))] else []) = some []
    norm_num
  have htext : relinkText
      { guid := "g".toList, title := some "hello energy world".toList } =
      "hello energy world".toList := by decide
  constructor
  · unfold relink_item_controls
    rw [htext, if_neg (by decide : ¬ ("hello energy world".toList = [])),
      if_neg (by decide :
        ¬ ([(⟨1, "C1".toList, "zzzz".toList,
              .ok (.arr [.str "zebra".toList])⟩ : Control)].isEmpty = true)),
      hrs]
    rfl
  · decide

/-- C1 (amended): `relink_item_controls` leaves the table unchanged and
returns `[]` when the item has no text or there are no controls; when the
qualifying set `scored` is non-empty it fully replaces the item's rows with
exactly that set (other items' rows untouched); but when `scored` is empty
the previously stored rows are left unchanged (no delete happens) while the
returned pair list is empty. -/
theorem relink_link_replacement (links : List LinkRow) (controls : List Control)
    (item : LinkItem) (minRel : ℚ) (now : Str) :
    (relinkText item = [] →
      relink_item_controls links controls item minRel now = some (links, [])) ∧
    (controls = [] →
      relink_item_controls links controls item minRel now = some (links, [])) ∧
    (∀ scored, relinkText item ≠ [] →
      relinkScored controls (relinkText item) minRel = some scored →
      (scored = [] →
        relink_item_controls links controls item minRel now = some (links, [])) ∧
      (scored ≠ [] →
        relink_item_controls links controls item minRel now =
          some (links.filter (fun r => r.item_guid ≠ item.guid) ++
                  scored.map (fun t => LinkRow.mk item.guid t.1 t.2.2 now),
                scored.map (fun t => (t.2.1, t.2.2))) ∧
        (links.filter (fun r => r.item_guid ≠ item.guid) ++
            scored.map (fun t => LinkRow.mk item.guid t.1 t.2.2 now)).filter
            (fun r => r.item_guid = item.guid) =
          scored.map (fun t => LinkRow.mk item.guid t.1 t.2.2 now) ∧
        (links.filter (fun r => r.item_guid ≠ item.guid) ++
            scored.map (fun t => LinkRow.mk item.guid t.1 t.2.2 now)).filter
            (fun r => r.item_guid ≠ item.guid) =
          links.filter (fun r => r.item_guid ≠ item.guid))) := by
  refine ⟨?_, ?_, ?_⟩
  · intro h
    unfold relink_item_controls
    rw [if_pos h]
  · rintro rfl
    unfold relink_item_controls
    split
    · rfl
    · rfl
  · intro scored hne hsc
    constructor
    · rintro rfl
      unfold relink_item_controls
      rw [if_neg hne]
      by_cases hce : controls.isEmpty
      · rw [if_pos hce]
      · rw [if_neg hce, hsc]
        rfl
    · intro hsne
      have hce : controls.isEmpty = false := by
        cases controls with
        | nil =>
            simp only [relinkScored, Option.some.injEq] at hsc
            exact absurd hsc.symm hsne
        | cons c rest => rfl
      refine ⟨?_, ?_, ?_⟩
      · unfold relink_item_controls
        rw [if_neg hne, if_neg (by rw [hce]; exact Bool.false_ne_true), hsc]
        simp only [Option.map_some']
        rw [if_neg (by simpa [List.isEmpty_iff] using hsne)]
      · rw [List.filter_append]
        have h1 : (links.filter (fun r => r.item_guid ≠ item.guid)).filter
            (fun r => r.item_guid = item.guid) = [] := by
          rw [List.filter_eq_nil_iff]
          intro r hr
          have := (List.mem_filter.mp hr).2
          simp at this ⊢
          exact this
        have h2 : (scored.map (fun t => LinkRow.mk item.guid t.1 t.2.2 now)).filter
            (fun r => r.item_guid = item.guid) =
            scored.map (fun t => LinkRow.mk item.guid t.1 t.2.2 now) := by
          rw [List.filter_eq_self]
          intro r hr
          obtain ⟨t, _, rfl⟩ := List.mem_map.mp hr
          simp
        rw [h1, h2, List.nil_append]
      · rw [List.filter_append]
        have h1 : (links.filter (fun r => r.item_guid ≠ item.guid)).filter
            (fun r => r.item_guid ≠ item.guid) =
            links.filter (fun r => r.item_guid ≠ item.guid) := by
          rw [List.filter_eq_self]
          intro r hr
          exact (List.mem_filter.mp hr).2
        have h2 : (scored.map (fun t => LinkRow.mk item.guid t.1 t.2.2 now)).filter
            (fun r => r.item_guid ≠ item.guid) = [] := by
          rw [List.filter_eq_nil_iff]
          intro r hr
          obtain ⟨t, _, rfl⟩ := List.mem_map.mp hr
          simp
        rw [h1, h2, List.append_nil]

/-- C1 witness: a matching control replaces the (empty) link set with
exactly one row and returns the `(ref, score)` pair. -/
theorem relink_link_replacement_witness :
    relinkScored [⟨1, "C1".toList, "zzzz".toList, .ok (.arr [.str "energy".toList])⟩]
        (relinkText { guid := "g".toList, title := some "hello energy world".toList })
        (35 / 100) = some [(1, "C1".toList, (1 : ℚ))] ∧
    relink_item_controls ([] : List LinkRow)
        [⟨1, "C1".toList, "zzzz".toList, .ok (.arr [.str "energy".toList])⟩]
        { guid := "g".toList, title := some "hello energy world".toList }
        (35 / 100) "t1".toList =
      some ([LinkRow.mk "g".toList 1 1 "t1".toList], [("C1".toList, (1 : ℚ))]) := by
  have htext : relinkText
      { guid := "g".toList, title := some "hello energy world".toList } =
      "hello energy world".toList := by decide
  have hov : List.countP (fun kw => !kwPhraseHit (pyLower "hello energy world".toList) kw &&
      kwWordHit (tokenize (pyLower "hello energy world".toList)) kw) ["energy".toList] = 1 := by
    decide
  have hpb : List.countP (kwPhraseHit (pyLower "hello energy world".toList))
      ["energy".toList] = 0 := by decide
  have hsing : List.countP (fun kw => !kw.contains ' ') ["energy".toList] = 1 := by decide
  have hsk : scoreKws "hello energy world".toList ["energy".toList] = 1 := by
    unfold scoreKws
    rw [if_neg (by decide), hov, hpb, hsing]
    norm_num [ratMin]
  have hnb : nameBonusApplies (pyLower "hello energy world".toList) "zzzz".toList = false := by
    decide
  have hs : fullScore "hello energy world".toList (.ok (.arr [.str "energy".toList]))
      "zzzz".toList = some 1 := by
    show some (ratMin 1
        (if nameBonusApplies (pyLower "hello energy world".toList) "zzzz".toList = true
         then scoreKws "hello energy world".toList ["energy".toList] + 1 / 10
         else scoreKws "hello energy world".toList ["energy".toList])) = some 1
    rw [hnb, if_neg (by simp), hsk]
    norm_num [ratMin]
  have hrs : relinkScored
      [⟨1, "C1".toList, "zzzz".toList, .ok (.arr [.str "energy".toList])⟩]
      "hello energy world".toList (35 / 100) = some [(1, "C1".toList, (1 : ℚ))] := by
    unfold relinkScored
    rw [hs]
    show some (if (35 : ℚ) / 100 ≤ 1 then [(1, "C1".toList, (1 : ℚ))] else []) =
      some [(1, "C1".toList, (1 : ℚ))]
    norm_num
  have hrs' : relinkScored [⟨1, "C1".toList, "zzzz".toList, .ok (.arr [.str "energy".toList])⟩]
      (relinkText { guid := "g".toList, title := some "hello energy world".toList })
      (35 / 100) = some [(1, "C1".toList, (1 : ℚ))] := by rw [htext]; exact hrs
  refine ⟨hrs', ?_⟩
  have h := ((relink_link_replacement ([] : List LinkRow)
      [⟨1, "C1".toList, "zzzz".toList, .ok (.arr [.str "energy".toList])⟩]
      { guid := "g".toList, title := some "hello energy world".toList }
      (35 / 100) "t1".toList).2.2 [(1, "C1".toList, (1 : ℚ))]
      (by rw [htext]; decide) hrs').2 (by simp)
  exact h.1

theorem scoreKws_nonneg (t : Str) (kws : List Str) : 0 ≤ scoreKws t kws := by
  unfold scoreKws
  split
  · exact le_refl 0
  · rw [ratMin_eq_min, ratMin_eq_min]
    have h1 : (0 : ℚ) ≤ ((kws.countP (fun kw => !kwPhraseHit (pyLower t) kw &&
        kwWordHit (tokenize (pyLower t)) kw) : ℕ) : ℚ) /
        ((max 1 (kws.countP (fun kw => !kw.contains ' ')) : ℕ) : ℚ) :=
      div_nonneg (Nat.cast_nonneg _) (Nat.cast_nonneg _)
    have h2 : (0 : ℚ) ≤ min 1 ((1 / 2 : ℚ) *
        ((kws.countP (kwPhraseHit (pyLower t)) : ℕ) : ℚ) / 2) := by
      refine le_min (by norm_num) ?_
      positivity
    exact le_min (by norm_num) (by linarith)

theorem scoreKws_le_one (t : Str) (kws : List Str) : scoreKws t kws ≤ 1 := by
  unfold scoreKws
  split
  · norm_num
  · rw [ratMin_eq_min]
    exact min_le_left _ _

theorem filterMap_str_eq (ks : List Str) :
    (ks.map Json.str).filterMap asNonBlankStr =
      ks.filter (fun k => decide (pyStrip k ≠ [])) := by
  induction ks with
  | nil => rfl
  | cons a l ih =>
      simp only [List.map_cons, List.filterMap_cons, List.filter_cons]
      by_cases h : pyStrip a ≠ []
      · have ha : asNonBlankStr (Json.str a) = some a := by simp [asNonBlankStr, h]
        rw [ha, ih]
        simp [h]
      · have ha : asNonBlankStr (Json.str a) = Option.none := by simp [asNonBlankStr, h]
        rw [ha, ih]
        simp [h]

theorem score_item_strList (t : Str) (ks : List Str) :
    score_item_against_control t (.ok (.arr (ks.map .str))) =
      some (scoreKws t (ks.filter (fun k => decide (pyStrip k ≠ [])))) := by
  cases ks with
  | nil => rfl
  | cons a l =>
      show some (scoreKws t (((a :: l).map Json.str).filterMap asNonBlankStr)) = _
      rw [filterMap_str_eq]

theorem tokenize_mem_ne_nil (s : Str) : ∀ w ∈ tokenize s, w ≠ [] := by
  intro w hw
  unfold tokenize at hw
  obtain ⟨r, hr, rfl⟩ := List.mem_map.mp hw
  have h3 := (List.mem_filter.mp hr).2
  simp only [decide_eq_true_eq] at h3
  intro hcon
  unfold pyLower at hcon
  have := List.map_eq_nil_iff.mp hcon
  subst this
  simp at h3

theorem kwMatches_nonblank (t k : Str) (h : kwMatches t k = true) : pyStrip k ≠ [] := by
  intro hcon
  unfold kwMatches kwPhraseHit kwWordHit at h
  rw [hcon] at h
  simp only [pyLower, List.map_nil] at h
  rcases Bool.or_eq_true_iff.mp h with h1 | h2
  · simp [List.contains] at h1
  · have := List.contains_iff_exists_mem_beq.mp h2
    obtain ⟨w, hw, hbeq⟩ := this
    have hne := tokenize_mem_ne_nil _ w hw
    have : w = [] := by
      cases w with
      | nil => rfl
      | cons c cs => simp at hbeq
    exact hne this

/-- C5: the bonus-adjusted relevance score always lies in `[0, 1]`; and
starting from keyword lists where nothing matches, appending one matching
keyword strictly increases the score. -/
theorem score_bounded_and_monotone :
    (∀ text kwsJson name s, fullScore text kwsJson name = some s → 0 ≤ s ∧ s ≤ 1) ∧
    (∀ text (ks : List Str) name k,
      (∀ kw ∈ ks, kwMatches text kw = false) → kwMatches text k = true →
      ∃ s0 s1, fullScore text (.ok (.arr (ks.map .str))) name = some s0 ∧
        fullScore text (.ok (.arr ((ks ++ [k]).map .str))) name = some s1 ∧ s0 < s1) := by
  constructor
  · intro text kwsJson name s hfs
    unfold fullScore at hfs
    obtain ⟨v, hv, rfl⟩ := Option.map_eq_some'.mp hfs
    unfold score_item_against_control at hv
    obtain ⟨l, _, rfl⟩ := Option.map_eq_some'.mp hv
    have hv0 := scoreKws_nonneg text (l.filterMap asNonBlankStr)
    rw [ratMin_eq_min]
    constructor
    · refine le_min (by norm_num) ?_
      split <;> linarith
    · exact min_le_left _ _
  · intro text ks name k hno hk
    have hknb : pyStrip k ≠ [] := kwMatches_nonblank _ _ hk
    have hF : ∀ kw ∈ ks.filter (fun k' => decide (pyStrip k' ≠ [])),
        kwMatches text kw = false := fun kw hkw => hno kw (List.mem_filter.mp hkw).1
    have hs0k : scoreKws text (ks.filter (fun k' => decide (pyStrip k' ≠ []))) = 0 :=
      scoreKws_all_unmatched _ _ hF
    have happ : (ks ++ [k]).filter (fun k' => decide (pyStrip k' ≠ [])) =
        ks.filter (fun k' => decide (pyStrip k' ≠ [])) ++ [k] := by
      rw [List.filter_append]
      simp [hknb]
    -- the two final scores, written through `score_item_strList`
    refine ⟨ratMin 1 (if nameBonusApplies (pyLower text) name = true
        then scoreKws text (ks.filter (fun k' => decide (pyStrip k' ≠ []))) + 1 / 10
        else scoreKws text (ks.filter (fun k' => decide (pyStrip k' ≠ [])))),
      ratMin 1 (if nameBonusApplies (pyLower text) name = true
        then scoreKws text ((ks ++ [k]).filter (fun k' => decide (pyStrip k' ≠ []))) + 1 / 10
        else scoreKws text ((ks ++ [k]).filter (fun k' => decide (pyStrip k' ≠ [])))), ?_, ?_, ?_⟩
    · unfold fullScore
      rw [score_item_strList]
      rfl
    · unfold fullScore
      rw [score_item_strList]
      rfl
    · -- abbreviations for the appended filtered list and its counters
      rw [happ, hs0k]
      set F := ks.filter (fun k' => decide (pyStrip k' ≠ [])) with hFdef
      have hov0 : F.countP (fun kw => !kwPhraseHit (pyLower text) kw &&
          kwWordHit (tokenize (pyLower text)) kw) = 0 := by
        rw [List.countP_eq_zero]
        intro kw hkw
        have hm := hF kw hkw
        unfold kwMatches at hm
        simp only [Bool.or_eq_false_iff] at hm
        simp [hm.1, hm.2]
      have hpb0 : F.countP (kwPhraseHit (pyLower text)) = 0 := by
        rw [List.countP_eq_zero]
        intro kw hkw
        have hm := hF kw hkw
        unfold kwMatches at hm
        simp only [Bool.or_eq_false_iff] at hm
        simp [hm.1]
      have hne : F ++ [k] ≠ [] := by simp
      have hbcases : (0 : ℚ) ≤ (if nameBonusApplies (pyLower text) name = true
          then (1 : ℚ) / 10 else 0) ∧
          (if nameBonusApplies (pyLower text) name = true then (1 : ℚ) / 10 else 0) ≤ 1 / 10 := by
        split <;> norm_num
      by_cases hph : kwPhraseHit (pyLower text) k = true
      · -- phrase keyword: phrase boost 0.5, overlap untouched
        have hov : (F ++ [k]).countP (fun kw => !kwPhraseHit (pyLower text) kw &&
            kwWordHit (tokenize (pyLower text)) kw) = 0 := by
          rw [List.countP_append, hov0]
          simp [hph]
        have hpb : (F ++ [k]).countP (kwPhraseHit (pyLower text)) = 1 := by
          rw [List.countP_append, hpb0]
          simp [hph]
        have hsk : scoreKws text (F ++ [k]) = 1 / 4 := by
          unfold scoreKws
          rw [if_neg hne, hov, hpb]
          rw [ratMin_eq_min, ratMin_eq_min, Nat.cast_zero, zero_div, Nat.cast_one]
          rw [min_eq_right (by norm_num : ((1:ℚ)/2 * 1 / 2) ≤ 1)]
          rw [zero_add, min_eq_right (by norm_num : ((1:ℚ)/2 * 1 / 2) ≤ 1)]
          norm_num
        rw [hsk, ratMin_eq_min, ratMin_eq_min]
        by_cases hB : nameBonusApplies (pyLower text) name = true
        · rw [if_pos hB, if_pos hB]
          rw [min_eq_right (by norm_num), min_eq_right (by norm_num)]
          norm_num
        · rw [if_neg hB, if_neg hB]
          rw [min_eq_right (by norm_num), min_eq_right (by norm_num)]
          norm_num
      · -- single-word keyword: overlap 1, denominator at least 1
        have hphf : kwPhraseHit (pyLower text) k = false := Bool.eq_false_iff.mpr hph
        have hwh : kwWordHit (tokenize (pyLower text)) k = true := by
          rcases Bool.or_eq_true_iff.mp hk with h | h
          · exact absurd h hph
          · exact h
        have hov : (F ++ [k]).countP (fun kw => !kwPhraseHit (pyLower text) kw &&
            kwWordHit (tokenize (pyLower text)) kw) = 1 := by
          rw [List.countP_append, hov0]
          simp [hphf, hwh]
        have hpb : (F ++ [k]).countP (kwPhraseHit (pyLower text)) = 0 := by
          rw [List.countP_append, hpb0]
          simp [hphf]
        have hd1 : 1 ≤ (max 1 ((F ++ [k]).countP (fun kw => !kw.contains ' ')) : ℕ) :=
          le_max_left _ _
        have hdq : (1 : ℚ) ≤ ((max 1 ((F ++ [k]).countP (fun kw => !kw.contains ' ')) : ℕ) : ℚ) := by
          exact_mod_cast hd1
        have hdpos : (0 : ℚ) <
            ((max 1 ((F ++ [k]).countP (fun kw => !kw.contains ' ')) : ℕ) : ℚ) :=
          lt_of_lt_of_le one_pos hdq
        have hinvle : (1 : ℚ) /
            ((max 1 ((F ++ [k]).countP (fun kw => !kw.contains ' ')) : ℕ) : ℚ) ≤ 1 := by
          rw [div_le_one hdpos]
          exact hdq
        have hinvpos : (0 : ℚ) <
            (1 : ℚ) / ((max 1 ((F ++ [k]).countP (fun kw => !kw.contains ' ')) : ℕ) : ℚ) :=
          div_pos one_pos hdpos
        have hsk : scoreKws text (F ++ [k]) =
            (1 : ℚ) / ((max 1 ((F ++ [k]).countP (fun kw => !kw.contains ' ')) : ℕ) : ℚ) := by
          unfold scoreKws
          rw [if_neg hne, hov, hpb]
          rw [ratMin_eq_min, ratMin_eq_min, Nat.cast_zero, Nat.cast_one]
          have hz : (1 : ℚ) / 2 * 0 / 2 = 0 := by norm_num
          rw [hz, min_eq_right (by norm_num : (0:ℚ) ≤ 1), add_zero, min_eq_right hinvle]
        rw [hsk, ratMin_eq_min, ratMin_eq_min]
        by_cases hB : nameBonusApplies (pyLower text) name = true
        · rw [if_pos hB, if_pos hB]
          rw [min_eq_right (by norm_num), zero_add]
          refine lt_min (by norm_num) (by linarith)
        · rw [if_neg hB, if_neg hB]
          rw [min_eq_right (by norm_num)]
          exact lt_min one_pos hinvpos

/-- C5 witness: appending the matching keyword `"energy"` to an empty
keyword list strictly raises the score of `"hello energy world"`. -/
theorem score_bounded_and_monotone_witness :
    kwMatches "hello energy world".toList "energy".toList = true ∧
    (∃ s0 s1,
      fullScore "hello energy world".toList (.ok (.arr (([] : List Str).map Json.str)))
        "zzzz".toList = some s0 ∧
      fullScore "hello energy world".toList
        (.ok (.arr ((([] : List Str) ++ ["energy".toList]).map Json.str)))
        "zzzz".toList = some s1 ∧ s0 < s1) :=
  ⟨by decide,
   score_bounded_and_monotone.2 "hello energy world".toList [] "zzzz".toList
     "energy".toList (by simp) (by decide)⟩

/-! ## Helper lemmas about whitespace splitting and joining -/

theorem splitOnP_chars {α : Type} (p : α → Bool) (l : List α) :
    ∀ t ∈ l.splitOnP p, ∀ c ∈ t, ¬ p c = true := by
  induction l with
  | nil =>
      intro t ht c hc
      rw [List.splitOnP_nil] at ht
      simp only [List.mem_singleton] at ht
      subst ht
      simp at hc
  | cons x xs ih =>
      intro t ht c hc
      rw [List.splitOnP_cons] at ht
      by_cases hp : p x = true
      · rw [if_pos hp] at ht
        rcases List.mem_cons.mp ht with rfl | ht'
        · simp at hc
        · exact ih t ht' c hc
      · rw [if_neg hp] at ht
        rcases hsp : xs.splitOnP p with _ | ⟨y, ys⟩
        · exact absurd hsp (List.splitOnP_ne_nil p xs)
        · rw [hsp, List.modifyHead_cons] at ht
          rcases List.mem_cons.mp ht with rfl | ht'
          · rcases List.mem_cons.mp hc with rfl | hc'
            · exact hp
            · exact ih y (by rw [hsp]; exact List.mem_cons_self _ _) c hc'
          · exact ih t (by rw [hsp]; exact List.mem_cons_of_mem _ ht') c hc

theorem pySplitWs_tokens (s : Str) :
    ∀ w ∈ pySplitWs s, w ≠ [] ∧ ∀ c ∈ w, pyIsSpace c = false := by
  intro w hw
  unfold pySplitWs at hw
  have h2 := List.mem_filter.mp hw
  refine ⟨by simpa using h2.2, fun c hc => ?_⟩
  exact Bool.eq_false_iff.mpr (splitOnP_chars pyIsSpace s w h2.1 c hc)

theorem joinSpace_singleton (w : Str) : joinSpace [w] = w := by
  simp [joinSpace, List.intercalate, List.intersperse]

theorem joinSpace_cons_cons (w v : Str) (rest : List Str) :
    joinSpace (w :: v :: rest) = w ++ ' ' :: joinSpace (v :: rest) := by
  simp [joinSpace, List.intercalate, List.intersperse]

theorem pySplitWs_joinSpace (ws : List Str)
    (h : ∀ w ∈ ws, w ≠ [] ∧ ∀ c ∈ w, pyIsSpace c = false) :
    pySplitWs (joinSpace ws) = ws := by
  induction ws with
  | nil => rfl
  | cons w rest ih =>
      have hw := h w (List.mem_cons_self _ _)
      have hwchars : ∀ c ∈ w, ¬ pyIsSpace c = true := by
        intro c hc
        rw [hw.2 c hc]
        simp
      cases rest with
      | nil =>
          rw [joinSpace_singleton]
          unfold pySplitWs
          rw [List.splitOnP_eq_single pyIsSpace w hwchars]
          simp [hw.1]
      | cons v rest2 =>
          rw [joinSpace_cons_cons]
          unfold pySplitWs
          rw [List.splitOnP_first pyIsSpace w hwchars ' ' (by decide) (joinSpace (v :: rest2))]
          rw [List.filter_cons]
          have ih2 := ih (fun x hx => h x (List.mem_cons_of_mem _ hx))
          unfold pySplitWs at ih2
          rw [if_pos (by simpa using hw.1), ih2]

theorem pySplitWs_joinSpace_append (ws : List Str) (x : Str)
    (h : ∀ w ∈ ws, w ≠ [] ∧ ∀ c ∈ w, pyIsSpace c = false)
    (hxch : ∀ c ∈ x, pyIsSpace c = false) (hne : ws ≠ []) :
    (pySplitWs (joinSpace ws ++ x)).length = ws.length := by
  induction ws with
  | nil => exact absurd rfl hne
  | cons w rest ih =>
      have hw := h w (List.mem_cons_self _ _)
      cases rest with
      | nil =>
          rw [joinSpace_singleton]
          unfold pySplitWs
          have hch : ∀ c ∈ w ++ x, ¬ pyIsSpace c = true := by
            intro c hc
            rcases List.mem_append.mp hc with hc' | hc'
            · rw [hw.2 c hc']; simp
            · rw [hxch c hc']; simp
          rw [List.splitOnP_eq_single pyIsSpace (w ++ x) hch]
          have : w ++ x ≠ [] := by simp [hw.1]
          simp [this]
      | cons v rest2 =>
          rw [joinSpace_cons_cons, List.append_assoc]
          unfold pySplitWs
          have hwchars : ∀ c ∈ w, ¬ pyIsSpace c = true := by
            intro c hc
            rw [hw.2 c hc]
            simp
          rw [show (' ' :: joinSpace (v :: rest2)) ++ x =
              ' ' :: (joinSpace (v :: rest2) ++ x) from rfl]
          rw [List.splitOnP_first pyIsSpace w hwchars ' ' (by decide) (joinSpace (v :: rest2) ++ x)]
          rw [List.filter_cons, if_pos (by simpa using hw.1)]
          have ih2 := ih (fun y hy => h y (List.mem_cons_of_mem _ hy)) (by simp)
          unfold pySplitWs at ih2
          simpa using ih2

/-- C7 counterexample: with `word_limit = 0` and non-empty text, the
deterministic fallback returns `"…"`, which splits into one word — more
than the limit. -/
theorem word_limit_zero_counterexample :
    generate_ai_summary Option.none "hello".toList 0 = "…".toList ∧
    (pySplitWs (generate_ai_summary Option.none "hello".toList 0)).length = 1 ∧
    ¬ ((pySplitWs (generate_ai_summary Option.none "hello".toList 0)).length ≤ 0) :=
  ⟨by decide, by decide, by decide⟩

/-- C7 (amended): for word limits ≥ 1, every summary produced from a
provider reply or by the deterministic fallback has at most `word_limit`
whitespace-separated words, and whenever the source exceeded the limit the
returned string ends with the ellipsis marker. -/
theorem summary_word_limit_enforced (text : Str) (limit : ℕ) (provider : Option Str)
    (hl : 1 ≤ limit) (ht : pyStrip text ≠ []) :
    (pySplitWs (generate_ai_summary provider text limit)).length ≤ limit ∧
    ((match provider with
      | Option.none => (pySplitWs (pyStrip text)).length
      | some r => (pySplitWs (pyStrip r)).length) > limit →
      (generate_ai_summary provider text limit).getLast? = some '…') := by
  have core : ∀ src : Str,
      (pySplitWs (joinSpace ((pySplitWs src).take limit) ++
        (if (pySplitWs src).length > limit then ['…'] else []))).length ≤ limit ∧
      ((pySplitWs src).length > limit →
        (joinSpace ((pySplitWs src).take limit) ++
          (if (pySplitWs src).length > limit then ['…'] else [])).getLast? = some '…') := by
    intro src
    have htok := pySplitWs_tokens src
    have htake : ∀ w ∈ (pySplitWs src).take limit, w ≠ [] ∧
        ∀ c ∈ w, pyIsSpace c = false :=
      fun w hw => htok w (List.mem_of_mem_take hw)
    by_cases hgt : (pySplitWs src).length > limit
    · rw [if_pos hgt]
      have hlen : ((pySplitWs src).take limit).length = limit := by
        rw [List.length_take]
        omega
      have htne : (pySplitWs src).take limit ≠ [] := by
        intro hcon
        rw [hcon] at hlen
        simp at hlen
        omega
      constructor
      · rw [pySplitWs_joinSpace_append _ _ htake (by decide) htne, hlen]
      · intro _
        exact List.getLast?_concat _
    · rw [if_neg hgt]
      have hto : (pySplitWs src).take limit = pySplitWs src :=
        List.take_of_length_le (by omega)
      rw [hto, List.append_nil, pySplitWs_joinSpace _ htok]
      exact ⟨by omega, fun hcon => absurd hcon hgt⟩
  cases provider with
  | none =>
      show (pySplitWs (generate_ai_summary Option.none text limit)).length ≤ limit ∧
        ((pySplitWs (pyStrip text)).length > limit →
          (generate_ai_summary Option.none text limit).getLast? = some '…')
      unfold generate_ai_summary
      rw [if_neg ht]
      show (pySplitWs (fallback_ai_summary (pyStrip text) limit)).length ≤ limit ∧
        ((pySplitWs (pyStrip text)).length > limit →
          (fallback_ai_summary (pyStrip text) limit).getLast? = some '…')
      unfold fallback_ai_summary
      exact core (pyStrip text)
  | some r =>
      show (pySplitWs (generate_ai_summary (some r) text limit)).length ≤ limit ∧
        ((pySplitWs (pyStrip r)).length > limit →
          (generate_ai_summary (some r) text limit).getLast? = some '…')
      unfold generate_ai_summary
      rw [if_neg ht]
      show (pySplitWs (providerTruncate r limit)).length ≤ limit ∧
        ((pySplitWs (pyStrip r)).length > limit →
          (providerTruncate r limit).getLast? = some '…')
      unfold providerTruncate
      by_cases hgt : (pySplitWs (pyStrip r)).length > limit
      · rw [if_pos hgt]
        have h := core (pyStrip r)
        rw [if_pos hgt] at h
        exact ⟨h.1, fun _ => h.2 hgt⟩
      · rw [if_neg hgt]
        exact ⟨by omega, fun hcon => absurd hcon hgt⟩

/-- C7 witness: limit 2 over a three-word text truncates to two words with
a trailing ellipsis. -/
theorem summary_word_limit_enforced_witness :
    (1 : ℕ) ≤ 2 ∧ pyStrip "one two three".toList ≠ [] ∧
    (pySplitWs (generate_ai_summary Option.none "one two three".toList 2)).length ≤ 2 ∧
    ((pySplitWs (pyStrip "one two three".toList)).length > 2 →
      (generate_ai_summary Option.none "one two three".toList 2).getLast? = some '…') := by
  have h := summary_word_limit_enforced "one two three".toList 2 Option.none
    (by decide) (by decide)
  exact ⟨by decide, by decide, h.1, h.2⟩

/-! ## Helper lemmas about JSON printing and parsing of strings -/

theorem hexVal_jsonHexDigit (n : ℕ) (h : n < 16) :
    hexVal (jsonHexDigit n) = some n := by
  interval_cases n <;> decide

theorem parseStrBody_u (a b d e : Char) (X : Str) :
    parseStrBody ('\\' :: 'u' :: a :: b :: d :: e :: X) =
      (match hexVal a, hexVal b, hexVal d, hexVal e with
       | some x, some y, some z, some w =>
           if (((x * 16 + y) * 16 + z) * 16 + w).isValidChar then
             (parseStrBody X).map
               (fun p => (Char.ofNat (((x * 16 + y) * 16 + z) * 16 + w) :: p.1, p.2))
           else .error ()
       | _, _, _, _ => .error ()) := rfl

theorem parseStrBody_quote (s rest : Str) :
    parseStrBody (s.flatMap jsonEscapeChar ++ '"' :: rest) = .ok (s, rest) := by
  induction s with
  | nil =>
      show parseStrBody ('"' :: rest) = .ok ([], rest)
      unfold parseStrBody
      rw [if_pos rfl]
  | cons c cs ih =>
      rw [List.flatMap_cons, List.append_assoc]
      by_cases h1 : c = '"'
      · subst h1
        show (parseStrBody (cs.flatMap jsonEscapeChar ++ '"' :: rest)).map
            (fun p => ('"' :: p.1, p.2)) = Except.ok ('"' :: cs, rest)
        rw [ih]
        rfl
      · by_cases h2 : c = '\\'
        · subst h2
          show (parseStrBody (cs.flatMap jsonEscapeChar ++ '"' :: rest)).map
              (fun p => ('\\' :: p.1, p.2)) = Except.ok ('\\' :: cs, rest)
          rw [ih]
          rfl
        · by_cases h3 : c = '\n'
          · subst h3
            show (parseStrBody (cs.flatMap jsonEscapeChar ++ '"' :: rest)).map
                (fun p => ('\n' :: p.1, p.2)) = Except.ok ('\n' :: cs, rest)
            rw [ih]
            rfl
          · by_cases h4 : c = '\r'
            · subst h4
              show (parseStrBody (cs.flatMap jsonEscapeChar ++ '"' :: rest)).map
                  (fun p => ('\r' :: p.1, p.2)) = Except.ok ('\r' :: cs, rest)
              rw [ih]
              rfl
            · by_cases h5 : c = '\t'
              · subst h5
                show (parseStrBody (cs.flatMap jsonEscapeChar ++ '"' :: rest)).map
                    (fun p => ('\t' :: p.1, p.2)) = Except.ok ('\t' :: cs, rest)
                rw [ih]
                rfl
              · by_cases h6 : c = '\x08'
                · subst h6
                  show (parseStrBody (cs.flatMap jsonEscapeChar ++ '"' :: rest)).map
                      (fun p => ('\x08' :: p.1, p.2)) = Except.ok ('\x08' :: cs, rest)
                  rw [ih]
                  rfl
                · by_cases h7 : c = '\x0c'
                  · subst h7
                    show (parseStrBody (cs.flatMap jsonEscapeChar ++ '"' :: rest)).map
                        (fun p => ('\x0c' :: p.1, p.2)) = Except.ok ('\x0c' :: cs, rest)
                    rw [ih]
                    rfl
                  · by_cases h8 : c.toNat < 32
                    · rw [show jsonEscapeChar c = ['\\', 'u', '0', '0',
                          jsonHexDigit (c.toNat / 16), jsonHexDigit (c.toNat % 16)] from by
                        unfold jsonEscapeChar
                        rw [if_neg h1, if_neg h2, if_neg h3, if_neg h4, if_neg h5,
                          if_neg h6, if_neg h7, if_pos h8]]
                      show parseStrBody ('\\' :: 'u' :: '0' :: '0' ::
                          jsonHexDigit (c.toNat / 16) :: jsonHexDigit (c.toNat % 16) ::
                          (cs.flatMap jsonEscapeChar ++ '"' :: rest)) =
                        Except.ok (c :: cs, rest)
                      rw [parseStrBody_u,
                        hexVal_jsonHexDigit (c.toNat / 16) (by omega),
                        hexVal_jsonHexDigit (c.toNat % 16) (by omega),
                        show hexVal '0' = some 0 from by decide]
                      show (if (((0 * 16 + 0) * 16 + c.toNat / 16) * 16 +
                              c.toNat % 16).isValidChar then
                          (parseStrBody (cs.flatMap jsonEscapeChar ++ '"' :: rest)).map
                            (fun p => (Char.ofNat (((0 * 16 + 0) * 16 + c.toNat / 16) * 16 +
                              c.toNat % 16) :: p.1, p.2))
                        else Except.error ()) = Except.ok (c :: cs, rest)
                      rw [if_pos (Or.inl (by omega) :
                          (((0 * 16 + 0) * 16 + c.toNat / 16) * 16 +
                            c.toNat % 16).isValidChar),
                        show ((0 * 16 + 0) * 16 + c.toNat / 16) * 16 + c.toNat % 16 =
                          c.toNat from by omega,
                        Char.ofNat_toNat, ih]
                      rfl
                    · rw [show jsonEscapeChar c = [c] from by
                        unfold jsonEscapeChar
                        rw [if_neg h1, if_neg h2, if_neg h3, if_neg h4, if_neg h5,
                          if_neg h6, if_neg h7, if_neg h8]]
                      show parseStrBody (c :: (cs.flatMap jsonEscapeChar ++ '"' :: rest)) =
                        Except.ok (c :: cs, rest)
                      unfold parseStrBody
                      rw [if_neg h1, if_neg h2, if_neg h8, ih]
                      rfl

theorem jsonSkipWs_nonws (c : Char) (rest : Str) (h : jsonIsWs c = false) :
    jsonSkipWs (c :: rest) = c :: rest := by
  simp [jsonSkipWs, List.dropWhile_cons, h]

theorem parseVal_str (n : ℕ) (t rest : Str) :
    parseVal (n + 1) ('"' :: (t.flatMap jsonEscapeChar ++ '"' :: rest)) =
      .ok (.str t, rest) := by
  unfold parseVal
  rw [jsonSkipWs_nonws '"' _ (by decide)]
  show (parseStrBody (t.flatMap jsonEscapeChar ++ '"' :: rest)).map
      (fun p => (Json.str p.1, p.2)) = .ok (.str t, rest)
  rw [parseStrBody_quote t rest]
  rfl

theorem parseVal_ws (n : ℕ) (x : Str) : parseVal n (' ' :: x) = parseVal n x := by
  cases n with
  | zero => rfl
  | succ m =>
      unfold parseVal
      rw [show jsonSkipWs (' ' :: x) = jsonSkipWs x from by
        simp [jsonSkipWs, List.dropWhile_cons, jsonIsWs]]

theorem parseElems_ws (n : ℕ) (x : Str) : parseElems n (' ' :: x) = parseElems n x := by
  cases n with
  | zero => rfl
  | succ m =>
      unfold parseElems
      rw [parseVal_ws]

/-- The element region of a dumped JSON string array (between the
brackets). -/
def dumpInner (ts : List Str) : Str :=
  List.intercalate (", ".toList) (ts.map jsonQuote)

theorem dumpInner_singleton (t : Str) : dumpInner [t] = jsonQuote t := by
  simp [dumpInner, List.intercalate, List.intersperse]

theorem dumpInner_cons_cons (a b : Str) (l : List Str) :
    dumpInner (a :: b :: l) = jsonQuote a ++ ',' :: ' ' :: dumpInner (b :: l) := by
  simp [dumpInner, List.intercalate, List.intersperse, String.toList]

theorem jsonDump_eq (ts : List Str) (hne : ts ≠ []) :
    jsonDumpStrList ts = '[' :: dumpInner ts ++ [']'] := by
  cases ts with
  | nil => exact absurd rfl hne
  | cons t l => rfl

theorem dumpInner_length (ts : List Str) :
    ts.length ≤ (dumpInner ts).length := by
  induction ts with
  | nil => simp [dumpInner]
  | cons t l ih =>
      cases l with
      | nil =>
          rw [dumpInner_singleton]
          unfold jsonQuote
          simp
      | cons b l2 =>
          rw [dumpInner_cons_cons]
          have h2 : 1 ≤ (jsonQuote t).length := by
            unfold jsonQuote
            simp
          have h3 := ih
          simp only [List.length_cons] at h3
          simp only [List.length_append, List.length_cons]
          omega

theorem parseElems_dump (ts : List Str) :
    ∀ (rest : Str) (n : ℕ), ts ≠ [] → ts.length + 1 ≤ n →
    parseElems n (dumpInner ts ++ ']' :: rest) = .ok (ts.map .str, rest) := by
  induction ts with
  | nil => intro rest n hne _; exact absurd rfl hne
  | cons t ts' ih =>
      intro rest n _ hn
      obtain ⟨m, rfl⟩ : ∃ m, n = m + 1 := ⟨n - 1, by omega⟩
      obtain ⟨k, rfl⟩ : ∃ k, m = k + 1 := ⟨m - 1, by simp at hn; omega⟩
      cases ts' with
      | nil =>
          rw [dumpInner_singleton]
          rw [show jsonQuote t ++ ']' :: rest =
            '"' :: (t.flatMap jsonEscapeChar ++ '"' :: (']' :: rest)) from by
              unfold jsonQuote; simp]
          unfold parseElems
          rw [parseVal_str k t (']' :: rest)]
          rfl
      | cons t2 ts'' =>
          rw [dumpInner_cons_cons]
          rw [show (jsonQuote t ++ ',' :: ' ' :: dumpInner (t2 :: ts'')) ++ ']' :: rest =
            '"' :: (t.flatMap jsonEscapeChar ++ '"' :: (',' :: ' ' ::
              (dumpInner (t2 :: ts'') ++ ']' :: rest))) from by
              unfold jsonQuote; simp]
          unfold parseElems
          rw [parseVal_str k t _]
          show (parseElems (k + 1) (' ' :: (dumpInner (t2 :: ts'') ++ ']' :: rest))).map
              (fun p => (Json.str t :: p.1, p.2)) =
            .ok ((t :: t2 :: ts'').map Json.str, rest)
          rw [parseElems_ws,
            ih rest (k + 1) (by simp) (by simp at hn ⊢; omega)]
          rfl

theorem parseVal_arr (n : ℕ) (y : Str) :
    parseVal (n + 1) ('[' :: '"' :: y) =
      (parseElems n ('"' :: y)).map (fun p => (Json.arr p.1, p.2)) := rfl

theorem jsonLoads_dump (ts : List Str) :
    jsonLoads (jsonDumpStrList ts) = .ok (.arr (ts.map .str)) := by
  cases ts with
  | nil => rfl
  | cons t ts' =>
      obtain ⟨R, hR⟩ : ∃ R, dumpInner (t :: ts') =
          '"' :: ((t.flatMap jsonEscapeChar ++ ['"']) ++ R) := by
        cases ts' with
        | nil =>
            exact ⟨[], by rw [dumpInner_singleton]; unfold jsonQuote; simp⟩
        | cons t2 ts'' =>
            exact ⟨',' :: ' ' :: dumpInner (t2 :: ts''), by
              rw [dumpInner_cons_cons]; unfold jsonQuote; simp⟩
      unfold jsonLoads
      rw [jsonDump_eq _ (by simp)]
      rw [show ('[' :: dumpInner (t :: ts') ++ [']']).length + 1 =
        (dumpInner (t :: ts')).length + 2 + 1 from by simp]
      rw [show ('[' : Char) :: dumpInner (t :: ts') ++ [']'] =
        '[' :: '"' :: (((t.flatMap jsonEscapeChar ++ ['"']) ++ R) ++ [']']) from by
          rw [hR]; simp]
      rw [parseVal_arr ((dumpInner (t :: ts')).length + 2) _]
      rw [show ('"' : Char) :: (((t.flatMap jsonEscapeChar ++ ['"']) ++ R) ++ [']']) =
        dumpInner (t :: ts') ++ ']' :: [] from by rw [hR]; simp]
      rw [parseElems_dump (t :: ts') [] _ (by simp)
        (by have := dumpInner_length (t :: ts'); omega)]
      rfl

/-! ## Helper lemmas about `pyStrip` -/

theorem dropWhile_head_false (p : Char → Bool) (l : Str) :
    ∀ c, (l.dropWhile p).head? = some c → p c = false := by
  induction l with
  | nil => intro c h; simp at h
  | cons x xs ih =>
      intro c h
      rw [List.dropWhile_cons] at h
      by_cases hp : p x
      · rw [if_pos hp] at h
        exact ih c h
      · rw [if_neg hp] at h
        simp only [List.head?_cons, Option.some.injEq] at h
        subst h
        exact Bool.eq_false_iff.mpr hp

theorem suffix_getLast? {u l : Str} (h : u <:+ l) (hu : u ≠ []) :
    u.getLast? = l.getLast? := by
  obtain ⟨pre, rfl⟩ := h
  rw [List.getLast?_append]
  cases hug : u.getLast? with
  | none => exact absurd (List.getLast?_eq_none_iff.mp hug) hu
  | some x => rfl

theorem pyStrip_head_false (s : Str) :
    ∀ c, (pyStrip s).head? = some c → pyIsSpace c = false := by
  intro c h
  unfold pyStrip at h
  rw [List.head?_reverse] at h
  by_cases hu : ((s.dropWhile pyIsSpace).reverse.dropWhile pyIsSpace) = []
  · rw [hu] at h
    simp at h
  · rw [suffix_getLast? (List.dropWhile_suffix pyIsSpace) hu,
      List.getLast?_reverse] at h
    exact dropWhile_head_false pyIsSpace s c h

theorem pyStrip_last_false (s : Str) :
    ∀ c, (pyStrip s).getLast? = some c → pyIsSpace c = false := by
  intro c h
  unfold pyStrip at h
  rw [List.getLast?_reverse] at h
  exact dropWhile_head_false pyIsSpace _ c h

theorem pyStrip_noop (s : Str)
    (h1 : ∀ c, s.head? = some c → pyIsSpace c = false)
    (h2 : ∀ c, s.getLast? = some c → pyIsSpace c = false) : pyStrip s = s := by
  unfold pyStrip
  rw [show s.dropWhile pyIsSpace = s from ?_, show s.reverse.dropWhile pyIsSpace =
    s.reverse from ?_, List.reverse_reverse]
  · cases hs : s.reverse with
    | nil => rfl
    | cons c cs =>
        rw [List.dropWhile_cons, if_neg]
        have : s.getLast? = some c := by
          rw [← List.head?_reverse, hs]
          rfl
        simp [h2 c this]
  · cases hs : s with
    | nil => rfl
    | cons c cs =>
        rw [List.dropWhile_cons, if_neg]
        simp [h1 c (by rw [hs]; rfl)]

theorem pyStrip_idem (s : Str) : pyStrip (pyStrip s) = pyStrip s :=
  pyStrip_noop _ (pyStrip_head_false s) (pyStrip_last_false s)

theorem pyStrip_bracketed (x : Str) :
    pyStrip ('[' :: x ++ [']']) = '[' :: x ++ [']'] := by
  apply pyStrip_noop
  · intro c h
    simp only [List.cons_append, List.head?_cons, Option.some.injEq] at h
    subst h
    rfl
  · intro c h
    rw [show ('[' : Char) :: x ++ [']'] = ('[' :: x) ++ [']'] from rfl,
      List.getLast?_concat] at h
    simp only [Option.some.injEq] at h
    subst h
    rfl

/-! ## Helper lemmas about `stripFilter` -/

theorem stripFilter_mem {x : Str} {ts : List Str} (h : x ∈ stripFilter ts) :
    pyStrip x = x ∧ x ≠ [] := by
  unfold stripFilter at h
  have h1 := List.mem_filter.mp h
  obtain ⟨t, _, rfl⟩ := List.mem_map.mp h1.1
  exact ⟨pyStrip_idem t, by simpa using h1.2⟩

theorem splitCommaStrip_mem {x s : Str} (h : x ∈ splitCommaStrip s) :
    pyStrip x = x ∧ x ≠ [] := by
  unfold splitCommaStrip at h
  have h1 := List.mem_filter.mp h
  obtain ⟨t, _, rfl⟩ := List.mem_map.mp h1.1
  exact ⟨pyStrip_idem t, by simpa using h1.2⟩

theorem stripFilter_of_normalized (l : List Str)
    (h : ∀ x ∈ l, pyStrip x = x ∧ x ≠ []) : stripFilter l = l := by
  have hmap : l.map pyStrip = l := by
    have h2 := List.map_congr_left (l := l) (f := pyStrip)
      (g := fun x => x) (fun x hx => (h x hx).1)
    simpa using h2
  show (l.map pyStrip).filter (fun x => decide (x ≠ [])) = l
  rw [hmap]
  exact List.filter_eq_self.mpr (fun x hx => by simp [(h x hx).2])

theorem tagsNormalized_mem (x : TagsIn) :
    ∀ t ∈ tagsNormalized x, pyStrip t = t ∧ t ≠ [] := by
  intro t h
  cases x with
  | none => cases h
  | list ts => exact stripFilter_mem h
  | str s0 =>
      simp only [tagsNormalized] at h
      by_cases hs : pyStrip s0 = []
      · rw [if_pos hs] at h
        cases h
      · rw [if_neg hs] at h
        cases hj : jsonLoads (pyStrip s0) with
        | error e =>
            rw [hj] at h
            exact splitCommaStrip_mem h
        | ok j =>
            rw [hj] at h
            cases j with
            | arr xs => exact stripFilter_mem h
            | null => exact splitCommaStrip_mem h
            | bool b => exact splitCommaStrip_mem h
            | num q => exact splitCommaStrip_mem h
            | str s1 => exact splitCommaStrip_mem h
            | obj fs => exact splitCommaStrip_mem h

theorem dump_tags_eq (x : TagsIn) :
    dump_tags x = jsonDumpStrList (tagsNormalized x) := by
  cases x with
  | none => rfl
  | list ts => rfl
  | str s0 =>
      simp only [dump_tags, tagsNormalized]
      by_cases hs : pyStrip s0 = []
      · rw [if_pos hs, if_pos hs]
        rfl
      · rw [if_neg hs, if_neg hs]
        cases hj : jsonLoads (pyStrip s0) with
        | error e => rfl
        | ok j => cases j <;> rfl

theorem load_tags_some (r : Str) :
    load_tags (some r) =
      if r = [] then []
      else if pyStrip r = [] then []
      else
        match jsonLoads (pyStrip r) with
        | .ok (.arr xs) => stripFilter (xs.map pyJsonToStr)
        | _ =>
          if (pyStrip r).head? = some '[' ∧ (pyStrip r).getLast? = some ']' then
            ((((((pyStrip r).drop 1).dropLast).filter
                (fun c => c ≠ '"' ∧ c ≠ '\'')).splitOn ',').map pyStrip).filter (· ≠ [])
          else splitCommaStrip (pyStrip r) := rfl

theorem map_str_toStr (l : List Str) : (l.map Json.str).map pyJsonToStr = l := by
  rw [List.map_map]
  exact (List.map_congr_left (fun x _ => rfl)).trans (List.map_id _)

/-- C3 counterexample: `_load_tags(_dump_tags(...))` does not deduplicate —
the example from the claim comes back as `["Cyber", "Cyber", "Guidance"]`,
not `["Cyber", "Guidance"]`. -/
theorem tags_roundtrip_counterexample :
    load_tags (some (dump_tags
        (.list ["Cyber".toList, " Cyber ".toList, "Guidance".toList]))) =
      ["Cyber".toList, "Cyber".toList, "Guidance".toList] ∧
    (["Cyber".toList, "Cyber".toList, "Guidance".toList] : List Str) ≠
      ["Cyber".toList, "Guidance".toList] :=
  ⟨by decide, by decide⟩

theorem load_dump_list (l : List Str) :
    load_tags (some (jsonDumpStrList l)) = stripFilter l := by
  by_cases hl : l = []
  · subst hl
    rfl
  · rw [jsonDump_eq _ hl, load_tags_some, pyStrip_bracketed]
    rw [if_neg (by simp), if_neg (by simp)]
    rw [show ('[' : Char) :: dumpInner l ++ [']'] =
      jsonDumpStrList l from (jsonDump_eq _ hl).symm]
    rw [jsonLoads_dump l]
    show stripFilter ((l.map Json.str).map pyJsonToStr) = stripFilter l
    rw [map_str_toStr]

/-- C3 (amended): for every input tag representation — `None`, a list of
strings, a comma-separated string, or a JSON-array string, with arbitrary
(JSON-escape-requiring included) characters — `_load_tags(_dump_tags(tags))`
returns exactly the normalized tag list `_dump_tags` serializes
(`tagsNormalized`): the trimmed non-empty entries of the input, in input
order, every returned tag trimmed and non-empty, with duplicates
preserved, not deduplicated. -/
theorem tags_roundtrip_trimmed :
    (∀ x : TagsIn, load_tags (some (dump_tags x)) = tagsNormalized x) ∧
    (∀ (x : TagsIn) (t : Str), t ∈ load_tags (some (dump_tags x)) →
      pyStrip t = t ∧ t ≠ []) := by
  have hmain : ∀ x : TagsIn, load_tags (some (dump_tags x)) = tagsNormalized x := by
    intro x
    rw [dump_tags_eq, load_dump_list]
    exact stripFilter_of_normalized _ (tagsNormalized_mem x)
  refine ⟨hmain, fun x t ht => ?_⟩
  rw [hmain x] at ht
  exact tagsNormalized_mem x t ht

/-- C3 witness: a comma-separated string input round-trips to its trimmed
non-empty pieces, and a JSON-array-string input containing the claim's
example keeps `"Cyber"` trimmed and non-empty in the result. -/
theorem tags_roundtrip_trimmed_witness :
    load_tags (some (dump_tags (.str "Cyber, Guidance,, Cyber ".toList))) =
      tagsNormalized (.str "Cyber, Guidance,, Cyber ".toList) ∧
    "Cyber".toList ∈ load_tags (some (dump_tags
        (.str "[\"Cyber\", \" Cyber \", \"Guidance\"]".toList))) ∧
    pyStrip "Cyber".toList = "Cyber".toList ∧ "Cyber".toList ≠ [] :=
  ⟨tags_roundtrip_trimmed.1 (.str "Cyber, Guidance,, Cyber ".toList),
   by decide,
   tags_roundtrip_trimmed.2 (.str "[\"Cyber\", \" Cyber \", \"Guidance\"]".toList)
     "Cyber".toList (by decide)⟩

end Ofgem
